import Mathlib

/-!
Verification development for the `github-actions-aws-lambda` workshop repository.

The repository consists of:
* `lambda/src/index.ts` — a placeholder AWS Lambda handler;
* a setup shell script (OIDC provider + two IAM roles, create-or-update);
* two cleanup shell scripts (resource discovery and deletion);
* README-embedded GitHub Actions workflow YAML.

We shallowly embed each part:
* JavaScript JSON values as an inductive `Json`; the handler as a function
  `Json → Json → Json` (the value the async handler's promise resolves to);
* the shell scripts as lists of steps (`plain` commands aborting on failure
  under `set -e`, `check` commands used in `if`-conditions whose failure
  selects a branch, `orTrue` commands whose failure is ignored, and local
  file writes/removals), executed by a small-step interpreter that is
  parameterised over a semantics of the external AWS CLI (`Sem`):
  either an arbitrary success/failure oracle, or an explicit AWS-state
  semantics used for idempotence and deletion-order claims;
* the workflow YAML as a record of its trigger, environment and steps.
-/

/-! ## JSON values and the Lambda handler (`lambda/src/index.ts`) -/

/-- JavaScript values representable in JSON, used to model the Lambda
handler's `event`, `context` and return value. -/
inductive Json where
  | null
  | bool (b : Bool)
  | num (n : Int)
  | str (s : String)
  | arr (elems : List Json)
  | obj (fields : List (String × Json))

/-- JSON string escaping as performed by `JSON.stringify` on strings:
quote, backslash and control characters are escaped. -/
def escapeChar (c : Char) : String :=
  if c = '"' then "\\\""
  else if c = '\\' then "\\\\"
  else if c = (Char.ofNat 10) then "\\n"
  else if c = (Char.ofNat 13) then "\\r"
  else if c = (Char.ofNat 9) then "\\t"
  else String.singleton c

/-- A JSON string literal: the escaped characters surrounded by quotes. -/
def escapeString (s : String) : String :=
  "\"" ++ String.join (s.data.map escapeChar) ++ "\""

mutual

/-- Model of `JSON.stringify` on JSON-representable values. -/
def stringify : Json → String
  | .null => "null"
  | .bool b => if b then "true" else "false"
  | .num n => toString n
  | .str s => escapeString s
  | .arr xs => "[" ++ stringifyElems xs ++ "]"
  | .obj fs => "\x7b" ++ stringifyFields fs ++ "\x7d"

/-- Comma-separated serialisation of a JSON array's elements. -/
def stringifyElems : List Json → String
  | [] => ""
  | [x] => stringify x
  | x :: y :: rest => stringify x ++ "," ++ stringifyElems (y :: rest)

/-- Comma-separated serialisation of a JSON object's key/value pairs. -/
def stringifyFields : List (String × Json) → String
  | [] => ""
  | [(k, v)] => escapeString k ++ ":" ++ stringify v
  | (k, v) :: f :: rest =>
      escapeString k ++ ":" ++ stringify v ++ "," ++ stringifyFields (f :: rest)

end

/-- The exported Lambda handler of `lambda/src/index.ts`:
`async (event, context) => { console.log(...); return { statusCode: 200,
body: JSON.stringify({ event, context }) } }`.  The returned `Json` value is
the value the handler's promise resolves to; the `console.log` calls have no
effect on it.  On JSON-representable inputs the body never throws, so the
promise always resolves. -/
def handler (event context : Json) : Json :=
  Json.obj
    [("statusCode", Json.num 200),
     ("body", Json.str (stringify (Json.obj [("event", event), ("context", context)])))]

/-- Look a key up in an association list of JSON object fields
(first match wins, as in a JavaScript object literal without duplicates). -/
def lookupField : List (String × Json) → String → Option Json
  | [], _ => none
  | (k, v) :: rest, key => if k = key then some v else lookupField rest key

/-- Field access `value.key` on a JSON value: `none` unless the value is an
object with that field. -/
def getField : Json → String → Option Json
  | .obj fs, key => lookupField fs key
  | _, _ => none

/-! ## A model of the shell scripts

The setup and cleanup scripts are straight-line sequences of AWS CLI
invocations under `set -e`, with `if cmd >/dev/null 2>&1` existence checks
and one `cmd || true`.  We embed each script as a `List Step` and run it
with an interpreter parameterised over a semantics of the external CLI. -/

/-- One AWS CLI invocation: the argument prefix contributed by the
`aws_cmd` wrapper (`["--profile", p]` or `[]`), the subcommand
(e.g. `"iam get-role"`), and its arguments. -/
structure Cmd where
  pre : List String
  name : String
  args : List String
deriving DecidableEq

/-- How a command occurs in the script: as a plain `set -e` command, as the
condition of an `if` (existence check), or guarded by `|| true`. -/
inductive CmdKind where
  | plain
  | check
  | orTrue
deriving DecidableEq

/-- An observable event of a script run: an issued AWS CLI command (tagged
with how it occurs) or a local file write/removal. -/
inductive Event where
  | cmd (k : CmdKind) (c : Cmd)
  | fileWrite (n : String)
  | fileRemove (n : String)
deriving DecidableEq

/-- A basic script step: a plain command, a `|| true` command, a heredoc
file write, or an `rm -f`. -/
inductive BStep where
  | run (c : Cmd)
  | orTrue (c : Cmd)
  | writeFile (n : String)
  | removeFile (n : String)

/-- A script step: a basic step, or an `if cmd; then ...; else ...; fi`
whose branches are basic steps (as in both scripts). -/
inductive Step where
  | basic (b : BStep)
  | check (c : Cmd) (thenB elseB : List BStep)

/-- A semantics for the external AWS CLI: whether a command exits with
status zero in a world `W` (`ok`), the nonzero exit status the command
propagates when it fails (`failCode` — bash's `set -e` makes the script
exit with exactly the failing command's own status, which for the AWS CLI
need not be 1), how a successful command transforms the world, and a
safety monitor that flags a command issued in a world where it violates a
dependency (used for the deletion-order claim). -/
structure Sem (W : Type) where
  ok : W → Cmd → Bool
  failCode : W → Cmd → Nat
  apply : W → Cmd → W
  bad : W → Cmd → Bool

/-- The state of a script run: the current external world, the list of
events so far, the local files present, the exit status (`some code` once
`set -e` or an explicit `exit` fired), and whether the safety monitor has
fired. -/
structure ShellState (W : Type) where
  world : W
  trace : List Event
  files : List String
  exited : Option Nat
  bad : Bool

/-- Execute one basic step. A failing plain command sets the exit status
to the failing command's own status (`set -e` propagates it); a failing
`|| true` command is ignored; file steps touch only the local file list.
Nothing runs once the script has exited. -/
def execB (sem : Sem W) (s : ShellState W) : BStep → ShellState W
  | .run c =>
      if s.exited.isSome then s else
      let s1 := { s with trace := s.trace ++ [Event.cmd .plain c],
                         bad := s.bad || sem.bad s.world c }
      if sem.ok s.world c then { s1 with world := sem.apply s.world c }
      else { s1 with exited := some (sem.failCode s.world c) }
  | .orTrue c =>
      if s.exited.isSome then s else
      let s1 := { s with trace := s.trace ++ [Event.cmd .orTrue c],
                         bad := s.bad || sem.bad s.world c }
      if sem.ok s.world c then { s1 with world := sem.apply s.world c }
      else s1
  | .writeFile n =>
      if s.exited.isSome then s else
      { s with trace := s.trace ++ [Event.fileWrite n],
               files := if n ∈ s.files then s.files else s.files ++ [n] }
  | .removeFile n =>
      if s.exited.isSome then s else
      { s with trace := s.trace ++ [Event.fileRemove n],
               files := s.files.filter (fun m => m ≠ n) }

/-- Execute a list of basic steps in order. -/
def execBs (sem : Sem W) (s : ShellState W) : List BStep → ShellState W
  | [] => s
  | b :: rest => execBs sem (execB sem s b) rest

/-- Execute one step. An `if cmd` existence check issues its command, whose
failure is swallowed and selects the else branch. -/
def execStep (sem : Sem W) (s : ShellState W) : Step → ShellState W
  | .basic b => execB sem s b
  | .check c thenB elseB =>
      if s.exited.isSome then s else
      let s1 := { s with trace := s.trace ++ [Event.cmd .check c],
                         bad := s.bad || sem.bad s.world c }
      if sem.ok s.world c then
        execBs sem { s1 with world := sem.apply s.world c } thenB
      else execBs sem s1 elseB

/-- Execute a script (a list of steps) in order. -/
def execScript (sem : Sem W) : List Step → ShellState W → ShellState W
  | [], s => s
  | st :: rest, s => execScript sem rest (execStep sem s st)

/-- Success of a command under a status assignment: exit status zero —
all that `set -e`, `if cmd`, and `|| true` observe of a command. -/
def okOf (w : Cmd → Nat) (c : Cmd) : Bool :=
  decide (w c = 0)

/-- The oracle semantics: the world is an arbitrary assignment of an exit
status to each command (zero meaning success); commands have no further
effect, and a failing plain command propagates its own status. -/
def OracleSem : Sem (Cmd → Nat) where
  ok := fun w c => okOf w c
  failCode := fun w c => w c
  apply := fun w _ => w
  bad := fun _ _ => false

/-- A fresh run state over world `w`: no events, no files beyond `fs`,
not exited, monitor clear. -/
def initState (w : W) (fs : List String) : ShellState W :=
  { world := w, trace := [], files := fs, exited := none, bad := false }

/-! ## The concrete AWS CLI commands of the scripts -/

/-- The argument prefix the `aws_cmd` helper prepends: `--profile $AWS_PROFILE`
when a profile was supplied, nothing otherwise
(`if [[ -n "$AWS_PROFILE" ]]; then cmd="$cmd --profile $AWS_PROFILE"; fi`). -/
def profilePre (p : String) : List String :=
  if p = "" then [] else ["--profile", p]

/-- An AWS CLI invocation made through the `aws_cmd` helper. -/
def aws_cmd (p : String) (name : String) (args : List String) : Cmd :=
  { pre := profilePre p, name := name, args := args }

/-- `WORKSHOP_ROLE_NAME` from both scripts. -/
def WORKSHOP_ROLE_NAME : String := "GitHubActions-Lambda-Workshop"

/-- `LAMBDA_EXECUTION_ROLE_NAME` from both scripts. -/
def LAMBDA_EXECUTION_ROLE_NAME : String := "Lambda-Execution-Role-Workshop"

/-- `GITHUB_OIDC_PROVIDER_ARN`, built from the queried account id. -/
def githubOidcProviderArn (acct : String) : String :=
  "arn:aws:iam::" ++ acct ++ ":oidc-provider/token.actions.githubusercontent.com"

/-- `aws sts get-caller-identity` (credentials test). -/
def stsGetCallerIdentity (p : String) : Cmd :=
  aws_cmd p "sts get-caller-identity" []

/-- `aws sts get-caller-identity --query Account --output text`
(the `ACCOUNT_ID=$(...)` command substitution). -/
def stsGetAccount (p : String) : Cmd :=
  aws_cmd p "sts get-caller-identity" ["--query", "Account", "--output", "text"]

/-- `aws iam get-open-id-connect-provider ...` (existence check). -/
def getOidcProvider (p acct : String) : Cmd :=
  aws_cmd p "iam get-open-id-connect-provider"
    ["--open-id-connect-provider-arn", githubOidcProviderArn acct]

/-- `aws iam create-open-id-connect-provider ...`. -/
def createOidcProvider (p : String) : Cmd :=
  aws_cmd p "iam create-open-id-connect-provider"
    ["--url", "https://token.actions.githubusercontent.com",
     "--client-id-list", "sts.amazonaws.com",
     "--thumbprint-list", "6938fd4d98bab03faadb97b34396831e3780aea1"]

/-- `aws iam get-role --role-name r` (existence check). -/
def getRole (p r : String) : Cmd :=
  aws_cmd p "iam get-role" ["--role-name", r]

/-- `aws iam create-role` for the GitHub Actions workshop role. -/
def createWorkshopRole (p : String) : Cmd :=
  aws_cmd p "iam create-role"
    ["--role-name", WORKSHOP_ROLE_NAME,
     "--assume-role-policy-document", "file://trust-policy.json",
     "--description", "GitHub Actions role for Lambda workshop",
     "--tags", "Key=Workshop,Value=GitHubActions"]

/-- `aws iam put-role-policy` attaching the workshop permissions policy. -/
def putWorkshopPolicy (p : String) : Cmd :=
  aws_cmd p "iam put-role-policy"
    ["--role-name", WORKSHOP_ROLE_NAME,
     "--policy-name", "LambdaWorkshopPermissions",
     "--policy-document", "file://workshop-permissions.json"]

/-- `aws iam create-role` for the Lambda execution role. -/
def createLambdaRole (p : String) : Cmd :=
  aws_cmd p "iam create-role"
    ["--role-name", LAMBDA_EXECUTION_ROLE_NAME,
     "--assume-role-policy-document", "file://lambda-trust-policy.json",
     "--description", "Lambda execution role for workshop",
     "--max-session-duration", "3600",
     "--tags", "Key=Workshop,Value=GitHubActions"]

/-- `aws iam put-role-policy` attaching the Lambda execution permissions. -/
def putLambdaPolicy (p : String) : Cmd :=
  aws_cmd p "iam put-role-policy"
    ["--role-name", LAMBDA_EXECUTION_ROLE_NAME,
     "--policy-name", "LambdaWorkshopExecutionPermissions",
     "--policy-document", "file://lambda-execution-permissions.json"]

/-- `aws lambda list-functions` with the workshop tag query. -/
def lambdaListFunctions (p : String) : Cmd :=
  aws_cmd p "lambda list-functions"
    ["--query",
     "Functions[?contains(Tags[?Key==`Workshop`].Value, `GitHubActions`)].FunctionName",
     "--output", "text"]

/-- `aws lambda get-function-url-config --function-name f` (existence check). -/
def getFunctionUrlConfig (p f : String) : Cmd :=
  aws_cmd p "lambda get-function-url-config" ["--function-name", f]

/-- `aws lambda delete-function-url-config --function-name f` (run `|| true`). -/
def deleteFunctionUrlConfig (p f : String) : Cmd :=
  aws_cmd p "lambda delete-function-url-config" ["--function-name", f]

/-- `aws lambda delete-function --function-name f`. -/
def deleteFunction (p f : String) : Cmd :=
  aws_cmd p "lambda delete-function" ["--function-name", f]

/-- `aws iam list-roles` with the workshop name query. -/
def iamListRoles (p : String) : Cmd :=
  aws_cmd p "iam list-roles"
    ["--query",
     "Roles[?contains(RoleName, `workshop-lambda`) || contains(RoleName, `WorkshopLambda`)].RoleName",
     "--output", "text"]

/-- `aws iam list-attached-role-policies --role-name r`. -/
def listAttachedRolePolicies (p r : String) : Cmd :=
  aws_cmd p "iam list-attached-role-policies"
    ["--role-name", r, "--query", "AttachedPolicies[].PolicyArn", "--output", "text"]

/-- `aws iam detach-role-policy --role-name r --policy-arn a`. -/
def detachRolePolicy (p r a : String) : Cmd :=
  aws_cmd p "iam detach-role-policy" ["--role-name", r, "--policy-arn", a]

/-- `aws iam list-role-policies --role-name r` (inline policies). -/
def listRolePolicies (p r : String) : Cmd :=
  aws_cmd p "iam list-role-policies"
    ["--role-name", r, "--query", "PolicyNames[]", "--output", "text"]

/-- `aws iam delete-role-policy --role-name r --policy-name n`. -/
def deleteRolePolicy (p r n : String) : Cmd :=
  aws_cmd p "iam delete-role-policy" ["--role-name", r, "--policy-name", n]

/-- `aws iam delete-role --role-name r`. -/
def deleteRole (p r : String) : Cmd :=
  aws_cmd p "iam delete-role" ["--role-name", r]

/-- `aws iam list-policies --scope Local` with the workshop name query. -/
def iamListPolicies (p : String) : Cmd :=
  aws_cmd p "iam list-policies"
    ["--scope", "Local", "--query",
     "Policies[?contains(PolicyName, `LambdaWorkshop`) || contains(PolicyName, `workshop-lambda`)].Arn",
     "--output", "text"]

/-- `aws iam list-entities-for-policy --policy-arn a`. -/
def listEntitiesForPolicy (p a : String) : Cmd :=
  aws_cmd p "iam list-entities-for-policy"
    ["--policy-arn", a, "--query", "PolicyRoles[].RoleName", "--output", "text"]

/-- `aws iam delete-policy --policy-arn a`. -/
def deletePolicy (p a : String) : Cmd :=
  aws_cmd p "iam delete-policy" ["--policy-arn", a]

/-- `aws logs describe-log-groups` with the workshop name query. -/
def logsDescribeLogGroups (p : String) : Cmd :=
  aws_cmd p "logs describe-log-groups"
    ["--log-group-name-prefix", "/aws/lambda/", "--query",
     "logGroups[?contains(logGroupName, `workshop-lambda`) || contains(logGroupName, `-workshop-lambda`)].logGroupName",
     "--output", "text"]

/-- `aws logs delete-log-group --log-group-name g`. -/
def deleteLogGroup (p g : String) : Cmd :=
  aws_cmd p "logs delete-log-group" ["--log-group-name", g]

/-! ## The setup script (`scripts/setup-aws.sh`) -/

/-- The setup script's sequence of steps after argument parsing, given the
profile string `p` and the account id `acct` returned by the
`ACCOUNT_ID=$(aws_cmd sts get-caller-identity --query Account ...)`
substitution: credentials test, OIDC provider check/create, the two policy
document heredocs and the GitHub Actions role check / create+put / put,
the two Lambda policy heredocs and the Lambda execution role check /
create+put / put, and the final `rm -f` of the four temporary files. -/
def setupScript (p acct : String) : List Step :=
  [ .basic (.run (stsGetCallerIdentity p)),
    .basic (.run (stsGetAccount p)),
    .check (getOidcProvider p acct) [] [.run (createOidcProvider p)],
    .basic (.writeFile "trust-policy.json"),
    .basic (.writeFile "workshop-permissions.json"),
    .check (getRole p WORKSHOP_ROLE_NAME)
      [.run (putWorkshopPolicy p)]
      [.run (createWorkshopRole p), .run (putWorkshopPolicy p)],
    .basic (.writeFile "lambda-trust-policy.json"),
    .basic (.writeFile "lambda-execution-permissions.json"),
    .check (getRole p LAMBDA_EXECUTION_ROLE_NAME)
      [.run (putLambdaPolicy p)]
      [.run (createLambdaRole p), .run (putLambdaPolicy p)],
    .basic (.removeFile "trust-policy.json"),
    .basic (.removeFile "workshop-permissions.json"),
    .basic (.removeFile "lambda-trust-policy.json"),
    .basic (.removeFile "lambda-execution-permissions.json") ]

/-- `WORKSHOP_ROLE_ARN`, echoed as the `AWS_ROLE_ARN` repository secret. -/
def workshopRoleArn (acct : String) : String :=
  "arn:aws:iam::" ++ acct ++ ":role/" ++ WORKSHOP_ROLE_NAME

/-- `LAMBDA_EXECUTION_ROLE_ARN`, echoed as the repository secret of the
same name. -/
def lambdaExecutionRoleArn (acct : String) : String :=
  "arn:aws:iam::" ++ acct ++ ":role/" ++ LAMBDA_EXECUTION_ROLE_NAME

/-! ## The cleanup scripts (`scripts/cleanup-aws.sh`, `_facilitator/cleanup-aws.sh`) -/

/-- The values printed by the cleanup script's four `$( ... )` command
substitutions: the tagged Lambda functions, the matching role names, each
role's attached policy ARNs and inline policy names, the matching local
policy ARNs and the roles each is attached to, and the matching log
groups. -/
structure CleanupListings where
  functions : List String
  roles : List String
  attached : String → List String
  inlinePolicies : String → List String
  policies : List String
  policyRoles : String → List String
  logGroups : List String

/-- The per-function body of the cleanup script's first loop: the function
URL existence check guarding `delete-function-url-config ... || true`,
then `delete-function`. -/
def functionBlock (p f : String) : List Step :=
  [ .check (getFunctionUrlConfig p f) [.orTrue (deleteFunctionUrlConfig p f)] [],
    .basic (.run (deleteFunction p f)) ]

/-- The per-role body of the cleanup script's second loop: list and detach
every attached policy, list and delete every inline policy, then
`delete-role`. -/
def roleBlock (p : String) (L : CleanupListings) (r : String) : List Step :=
  [Step.basic (.run (listAttachedRolePolicies p r))]
    ++ (L.attached r).map (fun a => Step.basic (.run (detachRolePolicy p r a)))
    ++ [Step.basic (.run (listRolePolicies p r))]
    ++ (L.inlinePolicies r).map (fun n => Step.basic (.run (deleteRolePolicy p r n)))
    ++ [Step.basic (.run (deleteRole p r))]

/-- The per-policy body of the cleanup script's third loop: list the roles
the policy is attached to, detach it from each, then `delete-policy`. -/
def policyBlock (p : String) (L : CleanupListings) (a : String) : List Step :=
  [Step.basic (.run (listEntitiesForPolicy p a))]
    ++ (L.policyRoles a).map (fun r => Step.basic (.run (detachRolePolicy p r a)))
    ++ [Step.basic (.run (deletePolicy p a))]

/-- The cleanup script's sequence of steps after argument parsing:
credentials test, then the four discovery/deletion stages (functions,
roles, local policies, log groups).  `_facilitator/cleanup-aws.sh` is the
same sequence with the empty profile. -/
def cleanupScript (p : String) (L : CleanupListings) : List Step :=
  [ Step.basic (.run (stsGetCallerIdentity p)),
    Step.basic (.run (lambdaListFunctions p)) ]
    ++ L.functions.flatMap (functionBlock p)
    ++ [Step.basic (.run (iamListRoles p))]
    ++ L.roles.flatMap (roleBlock p L)
    ++ [Step.basic (.run (iamListPolicies p))]
    ++ L.policies.flatMap (policyBlock p L)
    ++ [Step.basic (.run (logsDescribeLogGroups p))]
    ++ L.logGroups.map (fun g => Step.basic (.run (deleteLogGroup p g)))

/-- The facilitator cleanup script `_facilitator/cleanup-aws.sh`: identical
to the parameterized cleanup script, but calling `aws` directly (no
`--profile` prefix). -/
def facilitatorCleanupScript (L : CleanupListings) : List Step :=
  cleanupScript "" L

/-! ## Argument parsing of the parameterized scripts -/

/-- Outcome of the `while [[ $# -gt 0 ]]; do case $1 in ... esac; done`
argument-parsing loop shared by the parameterized setup and cleanup
scripts: the final `AWS_PROFILE`/`AWS_REGION` values, or the
`echo "Usage: ..."; exit 1` branch taken on an unrecognized argument, or
the `set -e` abort caused by `shift 2` when a flag is the final argument. -/
inductive ParseOutcome where
  | ok (profile region : String)
  | usage
  | shiftFail
deriving DecidableEq

/-- The argument-parsing loop: `-p|--profile` and `-r|--region` consume
their value via `shift 2`; any other argument prints the usage message and
exits with status 1. -/
def parseArgs : List String → String → String → ParseOutcome
  | [], p, r => .ok p r
  | a :: rest, p, r =>
      if a = "-p" || a = "--profile" then
        match rest with
        | v :: rest2 => parseArgs rest2 v r
        | [] => .shiftFail
      else if a = "-r" || a = "--region" then
        match rest with
        | v :: rest2 => parseArgs rest2 p v
        | [] => .shiftFail
      else .usage

/-- Run the parameterized setup script on a command line: parse the
arguments (defaults `AWS_PROFILE=""`, `AWS_REGION="eu-west-1"`), then run
the provisioning steps; an unrecognized argument or a trailing flag exits
with status 1 before any AWS CLI command is issued. -/
def runSetup (args : List String) (acct : String) (w : Cmd → Nat) :
    ShellState (Cmd → Nat) :=
  match parseArgs args "" "eu-west-1" with
  | .ok p _ => execScript OracleSem (setupScript p acct) (initState w [])
  | _ => { initState w [] with exited := some 1 }

/-- Run the parameterized cleanup script on a command line, analogously. -/
def runCleanup (args : List String) (L : CleanupListings) (w : Cmd → Nat) :
    ShellState (Cmd → Nat) :=
  match parseArgs args "" "eu-west-1" with
  | .ok p _ => execScript OracleSem (cleanupScript p L) (initState w [])
  | _ => { initState w [] with exited := some 1 }

/-! ## AWS-state semantics for the setup script (idempotence claim) -/

/-- The part of the AWS account state the setup script reads and writes:
whether the GitHub OIDC provider exists, the existing role names, and the
inline role policies as a `((roleName, policyName), policyDocument)`
association list. -/
structure AwsSetupState where
  oidc : Bool
  roles : List String
  rolePolicies : List ((String × String) × String)

/-- `put-role-policy` as an upsert on the role-policy association list. -/
def putPolicyDoc (l : List ((String × String) × String))
    (key : String × String) (doc : String) : List ((String × String) × String) :=
  if l.any (fun e => decide (e.1 = key)) then
    l.map (fun e => if e.1 = key then (key, doc) else e)
  else l ++ [(key, doc)]

/-- AWS semantics of the commands the setup script issues: `get-*`
existence checks succeed iff the resource exists; `create-*` and
`put-role-policy` update the state; everything else succeeds without
effect.  The status a failing command would propagate is a fixed nonzero
value (255, as the AWS CLI uses on errors); it is never observed below:
under this semantics only the existence checks can fail, and the script
tests only their success. -/
def SetupSem : Sem AwsSetupState where
  ok := fun w c =>
    if c.name = "iam get-open-id-connect-provider" then w.oidc
    else if c.name = "iam get-role" then
      match c.args with
      | [_, r] => w.roles.contains r
      | _ => true
    else true
  failCode := fun _ _ => 255
  apply := fun w c =>
    if c.name = "iam create-open-id-connect-provider" then { w with oidc := true }
    else if c.name = "iam create-role" then
      match c.args with
      | _ :: r :: _ =>
          { w with roles := if w.roles.contains r then w.roles else w.roles ++ [r] }
      | _ => w
    else if c.name = "iam put-role-policy" then
      match c.args with
      | [_, r, _, n, _, d] => { w with rolePolicies := putPolicyDoc w.rolePolicies (r, n) d }
      | _ => w
    else w
  bad := fun _ _ => false

/-! ## AWS-state semantics for the cleanup scripts (deletion-order claim) -/

/-- The part of the AWS account state the cleanup script's deletions
depend on: whether each function has a URL config, and each role's
attached policy ARNs and inline policy names. -/
structure AwsCleanupState where
  hasUrl : String → Bool
  attached : String → List String
  inlinePolicies : String → List String

/-- AWS semantics of the commands the cleanup script issues, with a safety
monitor for deletion order: the function-URL existence check succeeds iff
the URL config exists; URL-config deletion, policy detachment and inline
policy deletion update the state; the monitor fires if `delete-function`
is issued while the function still has a URL config, or `delete-role`
while the role still has an attached or inline policy.  As for the setup
semantics, the status a failing command would propagate is a fixed
nonzero value never observed by the claims proved under it. -/
def CleanupSem : Sem AwsCleanupState where
  ok := fun w c =>
    if c.name = "lambda get-function-url-config" then
      match c.args with
      | [_, f] => w.hasUrl f
      | _ => true
    else true
  failCode := fun _ _ => 255
  apply := fun w c =>
    if c.name = "lambda delete-function-url-config" then
      match c.args with
      | [_, f] => { w with hasUrl := Function.update w.hasUrl f false }
      | _ => w
    else if c.name = "iam detach-role-policy" then
      match c.args with
      | [_, r, _, a] => { w with attached := Function.update w.attached r ((w.attached r).erase a) }
      | _ => w
    else if c.name = "iam delete-role-policy" then
      match c.args with
      | [_, r, _, n] =>
          { w with inlinePolicies := Function.update w.inlinePolicies r ((w.inlinePolicies r).erase n) }
      | _ => w
    else w
  bad := fun w c =>
    if c.name = "lambda delete-function" then
      match c.args with
      | [_, f] => w.hasUrl f
      | _ => false
    else if c.name = "iam delete-role" then
      match c.args with
      | [_, r] => !((w.attached r).isEmpty && (w.inlinePolicies r).isEmpty)
      | _ => false
    else false

/-! ## Trace combinators for the oracle semantics -/

/-- The event a basic step emits when reached. -/
def basicEvent : BStep → Event
  | .run c => .cmd .plain c
  | .orTrue c => .cmd .orTrue c
  | .writeFile n => .fileWrite n
  | .removeFile n => .fileRemove n

/-- The events a step emits under oracle `ok` if the script reaches it and
does not abort inside it. -/
def stepEvents (ok : Cmd → Bool) : Step → List Event
  | .basic b => [basicEvent b]
  | .check c thenB elseB =>
      Event.cmd .check c :: (if ok c then thenB else elseB).map basicEvent

/-- The full event list of a script under oracle `ok`, ignoring `set -e`
aborts. -/
def idealEvents (ok : Cmd → Bool) (steps : List Step) : List Event :=
  steps.flatMap (stepEvents ok)

/-- Whether an event is a plain (`set -e`-guarded) command that the oracle
fails. -/
def failingPlain (ok : Cmd → Bool) : Event → Bool
  | .cmd .plain c => !ok c
  | _ => false

/-- Truncate an event list at the first failing plain command (`set -e`
stops the script right after it). -/
def truncAt (ok : Cmd → Bool) : List Event → List Event
  | [] => []
  | e :: rest => if failingPlain ok e then [e] else e :: truncAt ok rest

/-- The number of occurrences of command `c` (under any kind) in a trace. -/
def countCmd (c : Cmd) (t : List Event) : Nat :=
  t.countP (fun e => match e with | .cmd _ c2 => decide (c2 = c) | _ => false)

/-- No retries: once a command has failed, no command with the same value
is ever issued later in the trace. -/
def NoRetry (ok : Cmd → Bool) (t : List Event) : Prop :=
  ∀ t1 k c t2, t = t1 ++ Event.cmd k c :: t2 → ok c = false →
    ∀ k2, Event.cmd k2 c ∉ t2

/-- The commands a basic step can issue. -/
def bstepCmds : BStep → List Cmd
  | .run c => [c]
  | .orTrue c => [c]
  | .writeFile _ => []
  | .removeFile _ => []

/-- The commands a step can issue (either branch of a check included). -/
def stepCmds : Step → List Cmd
  | .basic b => bstepCmds b
  | .check c thenB elseB => c :: (thenB.flatMap bstepCmds ++ elseB.flatMap bstepCmds)

/-- All commands a script can issue. -/
def scriptCmds (steps : List Step) : List Cmd :=
  steps.flatMap stepCmds

/-- A status assignment for the setup script in which every plain command
succeeds and the three existence checks (OIDC provider, workshop role,
Lambda execution role) succeed according to `b0`, `b1`, `b2` — a failing
check returning 255 (the AWS CLI's not-found status; the script only
tests success). -/
def setupOk (b0 b1 b2 : Bool) (c : Cmd) : Nat :=
  if (if c.name = "iam get-open-id-connect-provider" then b0
      else if c.name = "iam get-role" then
        if c.args = ["--role-name", WORKSHOP_ROLE_NAME] then b1 else b2
      else true) then 0 else 255

/-! ## The GitHub Actions workflow taught by the README -/

/-- One step of the deploy workflow: its name, the marketplace action it
uses (if any), and the repository secrets and environment variables its
`with`/`run` block references. -/
structure WorkflowStep where
  stepName : String
  usesAction : Option String
  secretsUsed : List String
  envUsed : List String

/-- The `deploy-lambda.yaml` workflow assembled over README sections 1-5:
trigger, concurrency group, workflow and job environment, and steps. -/
structure Workflow where
  workflowName : String
  onPushBranches : List String
  workflowEnv : List (String × String)
  jobEnv : List (String × String)
  steps : List WorkflowStep

/-- The workflow the README instructs participants to build
(`.github/workflows/deploy-lambda.yaml`, sections 1 through 5). -/
def deployLambdaWorkflow : Workflow where
  workflowName := "Deploy Lambda to AWS"
  onPushBranches := ["*-workshop"]
  workflowEnv := [("AWS_REGION", "eu-west-1")]
  jobEnv := [("FUNCTION_NAME", "$\x7b\x7b github.ref_name \x7d\x7d")]
  steps :=
    [ { stepName := "Checkout repository", usesAction := some "actions/checkout@v6",
        secretsUsed := [], envUsed := [] },
      { stepName := "Configure AWS Credentials",
        usesAction := some "aws-actions/configure-aws-credentials@v6",
        secretsUsed := ["AWS_ROLE_ARN"], envUsed := ["AWS_REGION"] },
      { stepName := "Setup Node.js", usesAction := some "actions/setup-node@v6",
        secretsUsed := [], envUsed := [] },
      { stepName := "Install dependencies", usesAction := none,
        secretsUsed := [], envUsed := [] },
      { stepName := "Build TypeScript", usesAction := none,
        secretsUsed := [], envUsed := [] },
      { stepName := "Package Lambda function", usesAction := none,
        secretsUsed := [], envUsed := [] },
      { stepName := "Check if Lambda function exists", usesAction := none,
        secretsUsed := [], envUsed := ["FUNCTION_NAME"] },
      { stepName := "Create Lambda function", usesAction := none,
        secretsUsed := ["LAMBDA_EXECUTION_ROLE_ARN"], envUsed := ["FUNCTION_NAME"] },
      { stepName := "Update Lambda function code", usesAction := none,
        secretsUsed := [], envUsed := ["FUNCTION_NAME"] },
      { stepName := "Get Lambda function URL", usesAction := none,
        secretsUsed := [], envUsed := ["FUNCTION_NAME"] },
      { stepName := "Create Function URL (if not exists)", usesAction := none,
        secretsUsed := [], envUsed := ["FUNCTION_NAME"] },
      { stepName := "Test Lambda function", usesAction := none,
        secretsUsed := [], envUsed := ["FUNCTION_NAME"] } ]

/-- The distinct repository secrets a workflow consumes, in order of first
use. -/
def workflowSecrets (wf : Workflow) : List String :=
  (wf.steps.flatMap (fun st => st.secretsUsed)).dedup

/-- The distinct environment variable names a workflow defines. -/
def workflowEnvNames (wf : Workflow) : List String :=
  (wf.workflowEnv ++ wf.jobEnv).map (fun e => e.1)

/-! ## Concrete instances used by counterexamples and witnesses -/

/-- A concrete cleanup world: one tagged workshop function, nothing else. -/
def exampleListings : CleanupListings where
  functions := ["demo-workshop"]
  roles := []
  attached := fun _ => []
  inlinePolicies := fun _ => []
  policies := []
  policyRoles := fun _ => []
  logGroups := []

/-- A concrete status assignment under which exactly the
`lambda delete-function-url-config` command fails, with the AWS CLI's
client-error status 254. -/
def failUrlDeleteOracle (c : Cmd) : Nat :=
  if c.name = "lambda delete-function-url-config" then 254 else 0

/-! # Theorems -/

/-! ## C1, C8: the Lambda handler -/

/-- C1 (counterexample): the claim "the value the exported handler resolves
to equals the event it was invoked with" is false at the concrete input
`event = context = null`: the handler resolves to a response object, not to
the event. -/
theorem handler_result_ne_event_at_null :
    handler Json.null Json.null ≠ Json.null := by
  simp [handler]

/-- C1 (amended): the handler is a placeholder that echoes its input inside
the response rather than returning it: for every event and context it
resolves to an object whose `statusCode` field is `200` and whose `body`
field is `JSON.stringify({ event, context })` — not to the event itself. -/
theorem handler_echoes_input_in_body (event context : Json) :
    getField (handler event context) "statusCode" = some (Json.num 200) ∧
    getField (handler event context) "body" =
      some (Json.str (stringify (Json.obj [("event", event), ("context", context)]))) := by
  constructor <;> simp [handler, getField, lookupField]

/-- C8: for every event and context the handler resolves (it is a total
function on JSON-representable inputs — its body contains no failing
operation) to an object whose `statusCode` is exactly `200` and whose
`body` is `JSON.stringify({ event, context })`; no input produces any
other status code. -/
theorem handler_always_resolves_status_200 (event context : Json) :
    ∃ body : String,
      handler event context =
        Json.obj [("statusCode", Json.num 200), ("body", Json.str body)] ∧
      body = stringify (Json.obj [("event", event), ("context", context)]) :=
  ⟨stringify (Json.obj [("event", event), ("context", context)]), rfl, rfl⟩

/-! ## C6: the workflow's external interface -/

/-- C6: the workflow the README builds triggers on `push` to branches
matching `*-workshop`, defines exactly the environment variables
`AWS_REGION` (workflow level) and `FUNCTION_NAME` (job level), and
consumes exactly the repository secrets `AWS_ROLE_ARN` and
`LAMBDA_EXECUTION_ROLE_ARN`. -/
theorem workflow_interface_exact :
    deployLambdaWorkflow.onPushBranches = ["*-workshop"] ∧
    workflowEnvNames deployLambdaWorkflow = ["AWS_REGION", "FUNCTION_NAME"] ∧
    workflowSecrets deployLambdaWorkflow = ["AWS_ROLE_ARN", "LAMBDA_EXECUTION_ROLE_ARN"] := by
  refine ⟨rfl, rfl, ?_⟩
  decide

/-! ## Interpreter lemmas -/

/-- Once the script has exited, a basic step does nothing. -/
theorem execB_exited (sem : Sem W) (s : ShellState W) (b : BStep)
    (h : s.exited.isSome) : execB sem s b = s := by
  cases b <;> simp [execB, h]

/-- Once the script has exited, a list of basic steps does nothing. -/
theorem execBs_exited (sem : Sem W) :
    ∀ (l : List BStep) (s : ShellState W), s.exited.isSome →
      execBs sem s l = s := by
  intro l
  induction l with
  | nil => intro s _; rfl
  | cons b rest ih =>
      intro s h
      rw [execBs, execB_exited sem s b h, ih s h]

/-- Once the script has exited, a step does nothing. -/
theorem execStep_exited (sem : Sem W) (s : ShellState W) (st : Step)
    (h : s.exited.isSome) : execStep sem s st = s := by
  cases st with
  | basic b => exact execB_exited sem s b h
  | check c thenB elseB => simp [execStep, h]

/-- Once the script has exited, the rest of the script does nothing. -/
theorem execScript_exited (sem : Sem W) :
    ∀ (steps : List Step) (s : ShellState W), s.exited.isSome →
      execScript sem steps s = s := by
  intro steps
  induction steps with
  | nil => intro s _; rfl
  | cons st rest ih =>
      intro s h
      rw [execScript, execStep_exited sem s st h, ih s h]

/-- Truncation passes over a failure-free segment. -/
theorem truncAt_append_ok (ok : Cmd → Bool) :
    ∀ (l1 l2 : List Event), (∀ e ∈ l1, failingPlain ok e = false) →
      truncAt ok (l1 ++ l2) = l1 ++ truncAt ok l2 := by
  intro l1
  induction l1 with
  | nil => intro l2 _; rfl
  | cons e rest ih =>
      intro l2 h
      have he : failingPlain ok e = false := h e (List.mem_cons_self e rest)
      simp only [List.cons_append, truncAt, he, if_neg Bool.false_ne_true]
      show e :: truncAt ok (rest ++ l2) = e :: (rest ++ truncAt ok l2)
      rw [ih l2 (fun e' he' => h e' (List.mem_cons_of_mem e he'))]

/-- Truncation stops inside a segment that contains a failing plain
command. -/
theorem truncAt_append_fail (ok : Cmd → Bool) :
    ∀ (l1 l2 : List Event), (∃ e ∈ l1, failingPlain ok e = true) →
      truncAt ok (l1 ++ l2) = truncAt ok l1 := by
  intro l1
  induction l1 with
  | nil => intro l2 h; simp at h
  | cons e rest ih =>
      intro l2 h
      by_cases he : failingPlain ok e = true
      · simp [truncAt, he]
      · have he' : failingPlain ok e = false := by
          cases hb : failingPlain ok e
          · rfl
          · exact absurd hb he
        obtain ⟨e', he'mem, he'fail⟩ := h
        rcases List.mem_cons.mp he'mem with h1 | h2
        · exact absurd (h1 ▸ he'fail) he
        · simp only [List.cons_append, truncAt, he', if_neg Bool.false_ne_true]
          show e :: truncAt ok (rest ++ l2) = e :: truncAt ok rest
          rw [ih l2 ⟨e', h2, he'fail⟩]

/-- A successful plain command under the oracle semantics only extends the
trace. -/
theorem execB_run_ok_oracle (s : ShellState (Cmd → Nat)) (c : Cmd)
    (he : s.exited = none) (hc : okOf s.world c = true) :
    execB OracleSem s (.run c) = { s with trace := s.trace ++ [Event.cmd .plain c] } := by
  simp [execB, he, OracleSem, hc]

/-- A failing plain command under the oracle semantics extends the trace
and exits with the command's own status. -/
theorem execB_run_fail_oracle (s : ShellState (Cmd → Nat)) (c : Cmd)
    (he : s.exited = none) (hc : okOf s.world c = false) :
    execB OracleSem s (.run c) =
      { s with trace := s.trace ++ [Event.cmd .plain c],
               exited := some (s.world c) } := by
  simp [execB, he, OracleSem, hc]

/-- An `|| true` command under the oracle semantics only extends the
trace, whether it succeeds or fails. -/
theorem execB_orTrue_oracle (s : ShellState (Cmd → Nat)) (c : Cmd)
    (he : s.exited = none) :
    execB OracleSem s (.orTrue c) = { s with trace := s.trace ++ [Event.cmd .orTrue c] } := by
  cases hc : okOf s.world c <;> simp [execB, he, OracleSem, hc]

/-- A file write extends the trace and the file list. -/
theorem execB_write (sem : Sem W) (s : ShellState W) (n : String)
    (he : s.exited = none) :
    execB sem s (.writeFile n) =
      { s with trace := s.trace ++ [Event.fileWrite n],
               files := if n ∈ s.files then s.files else s.files ++ [n] } := by
  simp [execB, he]

/-- A file removal extends the trace and filters the file list. -/
theorem execB_remove (sem : Sem W) (s : ShellState W) (n : String)
    (he : s.exited = none) :
    execB sem s (.removeFile n) =
      { s with trace := s.trace ++ [Event.fileRemove n],
               files := s.files.filter (fun m => m ≠ n) } := by
  simp [execB, he]

/-- An existence check under the oracle semantics records its command and
runs the branch its success selects. -/
theorem execStep_check_oracle (s : ShellState (Cmd → Nat)) (c : Cmd)
    (thenB elseB : List BStep) (he : s.exited = none) :
    execStep OracleSem s (.check c thenB elseB) =
      execBs OracleSem { s with trace := s.trace ++ [Event.cmd .check c] }
        (if okOf s.world c then thenB else elseB) := by
  cases hc : okOf s.world c <;> simp [execStep, he, OracleSem, hc]

/-- Characterisation of a basic-step list under the oracle semantics: the
world is unchanged, the trace grows by the truncation of the steps' events
at the first failing plain command, and the run exits exactly when some
plain command fails — with that command's own status, the failing command
ending the trace. -/
theorem execBs_oracle (w : Cmd → Nat) :
    ∀ (l : List BStep) (s : ShellState (Cmd → Nat)), s.world = w → s.exited = none →
      (execBs OracleSem s l).world = w ∧
      (execBs OracleSem s l).trace = s.trace ++ truncAt (okOf w) (l.map basicEvent) ∧
      ((execBs OracleSem s l).exited = none ↔
        ∀ e ∈ l.map basicEvent, failingPlain (okOf w) e = false) ∧
      ((execBs OracleSem s l).exited = none ∨ ∃ c, okOf w c = false ∧
        (execBs OracleSem s l).exited = some (w c) ∧
        ∃ t1, (execBs OracleSem s l).trace = t1 ++ [Event.cmd .plain c]) := by
  intro l
  induction l with
  | nil =>
      intro s hw he
      refine ⟨hw, by simp [execBs, truncAt], by simp [execBs, he], Or.inl he⟩
  | cons b rest ih =>
      intro s hw he
      cases b with
      | run c =>
          cases hc : okOf w c with
          | true =>
              rw [execBs, execB_run_ok_oracle s c he (by rw [hw]; exact hc)]
              obtain ⟨ihw, iht, ihe, ihx⟩ :=
                ih { s with trace := s.trace ++ [Event.cmd .plain c] } hw he
              refine ⟨ihw, ?_, ?_, ihx⟩
              · rw [iht]
                simp [basicEvent, truncAt, failingPlain, hc]
              · rw [ihe]
                simp [basicEvent, failingPlain, hc]
          | false =>
              rw [execBs, execB_run_fail_oracle s c he (by rw [hw]; exact hc)]
              rw [execBs_exited _ _ _ (by simp)]
              refine ⟨hw, ?_, ?_, Or.inr ⟨c, hc, by rw [hw], s.trace, rfl⟩⟩
              · simp [basicEvent, truncAt, failingPlain, hc]
              · simp [basicEvent, failingPlain, hc]
      | orTrue c =>
          rw [execBs, execB_orTrue_oracle s c he]
          obtain ⟨ihw, iht, ihe, ihx⟩ :=
            ih { s with trace := s.trace ++ [Event.cmd .orTrue c] } hw he
          refine ⟨ihw, ?_, ?_, ihx⟩
          · rw [iht]
            simp [basicEvent, truncAt, failingPlain]
          · rw [ihe]
            simp [basicEvent, failingPlain]
      | writeFile n =>
          rw [execBs, execB_write _ s n he]
          obtain ⟨ihw, iht, ihe, ihx⟩ :=
            ih { s with trace := s.trace ++ [Event.fileWrite n],
                        files := if n ∈ s.files then s.files else s.files ++ [n] } hw he
          refine ⟨ihw, ?_, ?_, ihx⟩
          · rw [iht]
            simp [basicEvent, truncAt, failingPlain]
          · rw [ihe]
            simp [basicEvent, failingPlain]
      | removeFile n =>
          rw [execBs, execB_remove _ s n he]
          obtain ⟨ihw, iht, ihe, ihx⟩ :=
            ih { s with trace := s.trace ++ [Event.fileRemove n],
                        files := s.files.filter (fun m => m ≠ n) } hw he
          refine ⟨ihw, ?_, ?_, ihx⟩
          · rw [iht]
            simp [basicEvent, truncAt, failingPlain]
          · rw [ihe]
            simp [basicEvent, failingPlain]

/-- Truncation is the identity on a failure-free event list. -/
theorem truncAt_all_ok (ok : Cmd → Bool) (l : List Event)
    (h : ∀ e ∈ l, failingPlain ok e = false) : truncAt ok l = l := by
  have := truncAt_append_ok ok l [] h
  simpa [truncAt] using this

/-- `idealEvents` distributes over the head step. -/
theorem idealEvents_cons (ok : Cmd → Bool) (st : Step) (rest : List Step) :
    idealEvents ok (st :: rest) = stepEvents ok st ++ idealEvents ok rest := by
  simp [idealEvents]

/-- Characterisation of a script run under the oracle semantics: the world
is unchanged, the trace is the truncation of the script's events at the
first failing plain command, and the run exits exactly when some plain
command fails — with that command's own status, the failing command ending
the trace; check commands and `|| true` commands never abort it. -/
theorem execScript_oracle (w : Cmd → Nat) :
    ∀ (steps : List Step) (s : ShellState (Cmd → Nat)), s.world = w → s.exited = none →
      (execScript OracleSem steps s).world = w ∧
      (execScript OracleSem steps s).trace =
        s.trace ++ truncAt (okOf w) (idealEvents (okOf w) steps) ∧
      ((execScript OracleSem steps s).exited = none ↔
        ∀ e ∈ idealEvents (okOf w) steps, failingPlain (okOf w) e = false) ∧
      ((execScript OracleSem steps s).exited = none ∨ ∃ c, okOf w c = false ∧
        (execScript OracleSem steps s).exited = some (w c) ∧
        ∃ t1, (execScript OracleSem steps s).trace = t1 ++ [Event.cmd .plain c]) := by
  intro steps
  induction steps with
  | nil =>
      intro s hw he
      exact ⟨hw, by simp [execScript, idealEvents, truncAt],
        by simp [execScript, he, idealEvents], Or.inl he⟩
  | cons st rest ih =>
      intro s hw he
      rw [execScript]
      cases st with
      | basic b =>
          cases b with
          | run c =>
              cases hc : okOf w c with
              | true =>
                  rw [show execStep OracleSem s (.basic (.run c)) = execB OracleSem s (.run c) from rfl,
                    execB_run_ok_oracle s c he (by rw [hw]; exact hc)]
                  obtain ⟨ihw, iht, ihe, ihx⟩ :=
                    ih { s with trace := s.trace ++ [Event.cmd .plain c] } hw he
                  refine ⟨ihw, ?_, ?_, ihx⟩
                  · rw [iht, idealEvents_cons]
                    simp [stepEvents, basicEvent, truncAt, failingPlain, hc]
                  · rw [ihe, idealEvents_cons]
                    simp [stepEvents, basicEvent, failingPlain, hc]
              | false =>
                  rw [show execStep OracleSem s (.basic (.run c)) = execB OracleSem s (.run c) from rfl,
                    execB_run_fail_oracle s c he (by rw [hw]; exact hc)]
                  rw [execScript_exited _ _ _ (by simp)]
                  refine ⟨hw, ?_, ?_, Or.inr ⟨c, hc, by rw [hw], s.trace, rfl⟩⟩
                  · rw [idealEvents_cons]
                    simp [stepEvents, basicEvent, truncAt, failingPlain, hc]
                  · rw [idealEvents_cons]
                    simp [stepEvents, basicEvent, failingPlain, hc]
          | orTrue c =>
              rw [show execStep OracleSem s (.basic (.orTrue c)) = execB OracleSem s (.orTrue c) from rfl,
                execB_orTrue_oracle s c he]
              obtain ⟨ihw, iht, ihe, ihx⟩ :=
                ih { s with trace := s.trace ++ [Event.cmd .orTrue c] } hw he
              refine ⟨ihw, ?_, ?_, ihx⟩
              · rw [iht, idealEvents_cons]
                simp [stepEvents, basicEvent, truncAt, failingPlain]
              · rw [ihe, idealEvents_cons]
                simp [stepEvents, basicEvent, failingPlain]
          | writeFile n =>
              rw [show execStep OracleSem s (.basic (.writeFile n)) = execB OracleSem s (.writeFile n) from rfl,
                execB_write _ s n he]
              obtain ⟨ihw, iht, ihe, ihx⟩ :=
                ih { s with trace := s.trace ++ [Event.fileWrite n],
                            files := if n ∈ s.files then s.files else s.files ++ [n] } hw he
              refine ⟨ihw, ?_, ?_, ihx⟩
              · rw [iht, idealEvents_cons]
                simp [stepEvents, basicEvent, truncAt, failingPlain]
              · rw [ihe, idealEvents_cons]
                simp [stepEvents, basicEvent, failingPlain]
          | removeFile n =>
              rw [show execStep OracleSem s (.basic (.removeFile n)) = execB OracleSem s (.removeFile n) from rfl,
                execB_remove _ s n he]
              obtain ⟨ihw, iht, ihe, ihx⟩ :=
                ih { s with trace := s.trace ++ [Event.fileRemove n],
                            files := s.files.filter (fun m => m ≠ n) } hw he
              refine ⟨ihw, ?_, ?_, ihx⟩
              · rw [iht, idealEvents_cons]
                simp [stepEvents, basicEvent, truncAt, failingPlain]
              · rw [ihe, idealEvents_cons]
                simp [stepEvents, basicEvent, failingPlain]
      | check c thenB elseB =>
          rw [execStep_check_oracle s c thenB elseB he,
            show okOf s.world c = okOf w c from by rw [hw]]
          obtain ⟨bw, bt, be, bx⟩ :=
            execBs_oracle w (if okOf w c then thenB else elseB)
              { s with trace := s.trace ++ [Event.cmd .check c] } hw he
          by_cases hb : ∀ e ∈ (if okOf w c then thenB else elseB).map basicEvent,
              failingPlain (okOf w) e = false
          · have hbe : (execBs OracleSem { s with trace := s.trace ++ [Event.cmd .check c] }
                (if okOf w c then thenB else elseB)).exited = none := be.mpr hb
            obtain ⟨ihw, iht, ihe, ihx⟩ := ih _ bw hbe
            refine ⟨ihw, ?_, ?_, ihx⟩
            · rw [iht, bt, idealEvents_cons]
              simp only [stepEvents]
              rw [truncAt_all_ok (okOf w) _ hb]
              have hnotfail : failingPlain (okOf w) (Event.cmd .check c) = false := rfl
              simp only [List.cons_append, truncAt, hnotfail, if_neg Bool.false_ne_true]
              simp only [List.append_eq]
              rw [truncAt_append_ok (okOf w) _ _ hb]
              simp
            · rw [ihe, idealEvents_cons]
              simp only [stepEvents]
              constructor
              · intro hall e hemem
                rcases List.mem_cons.mp hemem with h1 | h2
                · subst h1; rfl
                · rcases List.mem_append.mp h2 with h3 | h4
                  · exact hb e h3
                  · exact hall e h4
              · intro hall e hemem
                exact hall e (List.mem_cons_of_mem _ (List.mem_append_right _ hemem))
          · have hb' : ∃ e ∈ (if okOf w c then thenB else elseB).map basicEvent,
                failingPlain (okOf w) e = true := by
              by_contra hcon
              apply hb
              intro e hemem
              cases hfe : failingPlain (okOf w) e
              · rfl
              · exact absurd ⟨e, hemem, hfe⟩ hcon
            obtain ⟨c0, hc0, hbe, t1, htr1⟩ :
                ∃ c0, okOf w c0 = false ∧
                  (execBs OracleSem { s with trace := s.trace ++ [Event.cmd .check c] }
                    (if okOf w c then thenB else elseB)).exited = some (w c0) ∧
                  ∃ t1, (execBs OracleSem { s with trace := s.trace ++ [Event.cmd .check c] }
                    (if okOf w c then thenB else elseB)).trace =
                      t1 ++ [Event.cmd .plain c0] := by
              rcases bx with h1 | h1
              · exact absurd (be.mp h1) hb
              · exact h1
            rw [execScript_exited _ _ _ (by simp [hbe])]
            refine ⟨bw, ?_, ?_, Or.inr ⟨c0, hc0, hbe, t1, htr1⟩⟩
            · rw [bt, idealEvents_cons]
              simp only [stepEvents]
              have hnotfail : failingPlain (okOf w) (Event.cmd .check c) = false := rfl
              simp only [List.cons_append, truncAt, hnotfail, if_neg Bool.false_ne_true]
              simp only [List.append_eq]
              rw [truncAt_append_fail (okOf w) _ _ hb']
              simp
            · rw [idealEvents_cons]
              simp only [stepEvents, hbe]
              constructor
              · intro hcontra; exact absurd hcontra (by simp)
              · intro hall
                obtain ⟨e, hemem, hfail⟩ := hb'
                have := hall e (List.mem_cons_of_mem _ (List.mem_append_left _ hemem))
                rw [this] at hfail
                exact absurd hfail (by simp)

/-! ## C3: setup role provisioning logic -/

/-- C3: under any oracle in which every plain command succeeds and the
three existence checks answer `b0` (OIDC provider), `b1` (GitHub Actions
role), `b2` (Lambda execution role), the setup script's run is exactly:
credentials test and account query, OIDC check (create only if absent),
write the trust and permissions policy documents, check the GitHub
Actions role — if absent create it and attach the permissions policy,
else only put the permissions policy — then the same for the Lambda
execution role, then remove the temporary files; and the script
completes. -/
theorem setup_provisioning_logic (p acct : String) (b0 b1 b2 : Bool) :
    (execScript OracleSem (setupScript p acct)
        (initState (setupOk b0 b1 b2) [])).trace =
      [Event.cmd .plain (stsGetCallerIdentity p),
       Event.cmd .plain (stsGetAccount p),
       Event.cmd .check (getOidcProvider p acct)]
      ++ (if b0 then [] else [Event.cmd .plain (createOidcProvider p)])
      ++ [Event.fileWrite "trust-policy.json",
          Event.fileWrite "workshop-permissions.json",
          Event.cmd .check (getRole p WORKSHOP_ROLE_NAME)]
      ++ (if b1 then [Event.cmd .plain (putWorkshopPolicy p)]
          else [Event.cmd .plain (createWorkshopRole p),
                Event.cmd .plain (putWorkshopPolicy p)])
      ++ [Event.fileWrite "lambda-trust-policy.json",
          Event.fileWrite "lambda-execution-permissions.json",
          Event.cmd .check (getRole p LAMBDA_EXECUTION_ROLE_NAME)]
      ++ (if b2 then [Event.cmd .plain (putLambdaPolicy p)]
          else [Event.cmd .plain (createLambdaRole p),
                Event.cmd .plain (putLambdaPolicy p)])
      ++ [Event.fileRemove "trust-policy.json",
          Event.fileRemove "workshop-permissions.json",
          Event.fileRemove "lambda-trust-policy.json",
          Event.fileRemove "lambda-execution-permissions.json"] ∧
    (execScript OracleSem (setupScript p acct)
        (initState (setupOk b0 b1 b2) [])).exited = none := by
  cases b0 <;> cases b1 <;> cases b2 <;>
    simp [execScript, execStep, execB, execBs, OracleSem, okOf, setupOk, setupScript,
      initState,
      stsGetCallerIdentity, stsGetAccount, getOidcProvider, createOidcProvider, getRole,
      createWorkshopRole, putWorkshopPolicy, createLambdaRole, putLambdaPolicy, aws_cmd,
      WORKSHOP_ROLE_NAME, LAMBDA_EXECUTION_ROLE_NAME]

/-! ## C7: the setup script's local file effects -/

/-- Removing a name that is not present leaves a file list unchanged. -/
theorem filter_ne_of_not_mem (fs : List String) (n : String) (h : n ∉ fs) :
    fs.filter (fun m => m ≠ n) = fs := by
  apply List.filter_eq_self.mpr
  intro a ha
  simp only [ne_eq, decide_not, Bool.not_eq_true', decide_eq_false_iff_not]
  intro han
  exact h (han ▸ ha)

/-- C7: the setup script's only local-filesystem effects are the four
temporary policy-document files, and each of them is removed before the
script completes: a completed run (any oracle in which every plain command
succeeds) started with none of the four names present leaves the local
file list exactly as it found it. -/
theorem setup_filesystem_unchanged (p acct : String) (b0 b1 b2 : Bool)
    (fs : List String)
    (h1 : "trust-policy.json" ∉ fs)
    (h2 : "workshop-permissions.json" ∉ fs)
    (h3 : "lambda-trust-policy.json" ∉ fs)
    (h4 : "lambda-execution-permissions.json" ∉ fs) :
    (execScript OracleSem (setupScript p acct)
        (initState (setupOk b0 b1 b2) fs)).files = fs ∧
    (execScript OracleSem (setupScript p acct)
        (initState (setupOk b0 b1 b2) fs)).exited = none := by
  cases b0 <;> cases b1 <;> cases b2 <;>
    simp [execScript, execStep, execB, execBs, OracleSem, okOf, setupOk, setupScript,
      initState,
      stsGetCallerIdentity, stsGetAccount, getOidcProvider, createOidcProvider, getRole,
      createWorkshopRole, putWorkshopPolicy, createLambdaRole, putLambdaPolicy, aws_cmd,
      WORKSHOP_ROLE_NAME, LAMBDA_EXECUTION_ROLE_NAME, h1, h2, h3, h4,
      filter_ne_of_not_mem fs _ h1, filter_ne_of_not_mem fs _ h2,
      filter_ne_of_not_mem fs _ h3, filter_ne_of_not_mem fs _ h4] <;>
    exact fun a ha =>
      ⟨fun hh => h4 (hh ▸ ha), fun hh => h3 (hh ▸ ha),
       fun hh => h2 (hh ▸ ha), fun hh => h1 (hh ▸ ha)⟩

/-- Witness for `setup_filesystem_unchanged` at a concrete input. -/
theorem setup_filesystem_unchanged_witness :
    (execScript OracleSem (setupScript "" "123456789012")
        (initState (setupOk true false true) [])).files = [] ∧
    (execScript OracleSem (setupScript "" "123456789012")
        (initState (setupOk true false true) [])).exited = none :=
  setup_filesystem_unchanged "" "123456789012" true false true []
    (by simp) (by simp) (by simp) (by simp)

/-! ## C9: unrecognized arguments -/

/-- After any well-formed flag/value pairs, an argument that is none of
`-p`, `--profile`, `-r`, `--region` makes the parsing loop take the usage
branch. -/
theorem parseArgs_usage_of_bad (badArg : String)
    (hb1 : badArg ≠ "-p") (hb2 : badArg ≠ "--profile")
    (hb3 : badArg ≠ "-r") (hb4 : badArg ≠ "--region") :
    ∀ (pairs : List (String × String)) (rest : List String) (p r : String),
      (∀ q ∈ pairs, q.1 = "-p" ∨ q.1 = "--profile" ∨ q.1 = "-r" ∨ q.1 = "--region") →
      parseArgs (pairs.flatMap (fun q => [q.1, q.2]) ++ badArg :: rest) p r =
        ParseOutcome.usage := by
  intro pairs
  induction pairs with
  | nil =>
      intro rest p r _
      rw [List.flatMap_nil, List.nil_append, parseArgs.eq_def]
      simp [hb1, hb2, hb3, hb4]
  | cons q pairs ih =>
      intro rest p r hflags
      have hrest : ∀ q' ∈ pairs, q'.1 = "-p" ∨ q'.1 = "--profile" ∨ q'.1 = "-r" ∨ q'.1 = "--region" :=
        fun q' hq' => hflags q' (List.mem_cons_of_mem q hq')
      simp only [List.flatMap_cons, List.cons_append, List.nil_append, List.append_assoc]
      rcases hflags q (List.mem_cons_self q pairs) with h | h | h | h <;>
        · rw [parseArgs.eq_def]
          simp only [h, List.cons_append]
          simp
          exact ih rest _ _ hrest

/-- C9: on any command line consisting of well-formed flag/value pairs
followed by an argument that is not `-p`/`--profile`/`-r`/`--region`, both
the parameterized setup script and the parameterized cleanup script take
the usage branch and exit with status 1 before issuing a single AWS CLI
command (their traces are empty). -/
theorem bad_argument_exits_before_aws (pairs : List (String × String))
    (badArg : String) (rest : List String) (acct : String)
    (L : CleanupListings) (w : Cmd → Nat)
    (hflags : ∀ q ∈ pairs, q.1 = "-p" ∨ q.1 = "--profile" ∨ q.1 = "-r" ∨ q.1 = "--region")
    (hb1 : badArg ≠ "-p") (hb2 : badArg ≠ "--profile")
    (hb3 : badArg ≠ "-r") (hb4 : badArg ≠ "--region") :
    (runSetup (pairs.flatMap (fun q => [q.1, q.2]) ++ badArg :: rest) acct w).trace = [] ∧
    (runSetup (pairs.flatMap (fun q => [q.1, q.2]) ++ badArg :: rest) acct w).exited = some 1 ∧
    (runCleanup (pairs.flatMap (fun q => [q.1, q.2]) ++ badArg :: rest) L w).trace = [] ∧
    (runCleanup (pairs.flatMap (fun q => [q.1, q.2]) ++ badArg :: rest) L w).exited = some 1 := by
  have hp := parseArgs_usage_of_bad badArg hb1 hb2 hb3 hb4 pairs rest "" "eu-west-1" hflags
  refine ⟨?_, ?_, ?_, ?_⟩ <;> simp [runSetup, runCleanup, hp, initState]

/-- Witness for `bad_argument_exits_before_aws` at a concrete command
line `-p myprofile --verbose`. -/
theorem bad_argument_exits_before_aws_witness :
    (runSetup ["-p", "myprofile", "--verbose"] "123456789012" (fun _ => 0)).trace = [] ∧
    (runSetup ["-p", "myprofile", "--verbose"] "123456789012" (fun _ => 0)).exited = some 1 ∧
    (runCleanup ["-p", "myprofile", "--verbose"] exampleListings (fun _ => 0)).trace = [] ∧
    (runCleanup ["-p", "myprofile", "--verbose"] exampleListings (fun _ => 0)).exited = some 1 :=
  bad_argument_exits_before_aws [("-p", "myprofile")] "--verbose" [] "123456789012"
    exampleListings (fun _ => 0)
    (by intro q hq; simp at hq; simp [hq])
    (by decide) (by decide) (by decide) (by decide)

/-! ## C10: profile threading through `aws_cmd` -/

/-- The trace of a plain command, for any semantics. -/
theorem execB_run_trace (sem : Sem W) (s : ShellState W) (c : Cmd)
    (he : s.exited = none) :
    (execB sem s (.run c)).trace = s.trace ++ [Event.cmd .plain c] := by
  cases hok : sem.ok s.world c <;> simp [execB, he, hok]

/-- The trace of an `|| true` command, for any semantics. -/
theorem execB_orTrue_trace (sem : Sem W) (s : ShellState W) (c : Cmd)
    (he : s.exited = none) :
    (execB sem s (.orTrue c)).trace = s.trace ++ [Event.cmd .orTrue c] := by
  cases hok : sem.ok s.world c <;> simp [execB, he, hok]

/-- Every command event a basic step adds to the trace is one of the
step's commands. -/
theorem execB_cmd_mem (sem : Sem W) (b : BStep) (s : ShellState W)
    (k : CmdKind) (c : Cmd) (h : Event.cmd k c ∈ (execB sem s b).trace) :
    Event.cmd k c ∈ s.trace ∨ c ∈ bstepCmds b := by
  by_cases he : s.exited.isSome
  · rw [execB_exited sem s b he] at h
    exact Or.inl h
  · have he' : s.exited = none := Option.not_isSome_iff_eq_none.mp he
    cases b with
    | run c' =>
        rw [execB_run_trace sem s c' he'] at h
        rcases List.mem_append.mp h with h | h
        · exact Or.inl h
        · simp only [List.mem_singleton, Event.cmd.injEq] at h
          exact Or.inr (by simp [bstepCmds, h.2])
    | orTrue c' =>
        rw [execB_orTrue_trace sem s c' he'] at h
        rcases List.mem_append.mp h with h | h
        · exact Or.inl h
        · simp only [List.mem_singleton, Event.cmd.injEq] at h
          exact Or.inr (by simp [bstepCmds, h.2])
    | writeFile n =>
        rw [execB_write sem s n he'] at h
        rcases List.mem_append.mp h with h | h
        · exact Or.inl h
        · simp at h
    | removeFile n =>
        rw [execB_remove sem s n he'] at h
        rcases List.mem_append.mp h with h | h
        · exact Or.inl h
        · simp at h

/-- Every command event a basic-step list adds to the trace is one of the
steps' commands. -/
theorem execBs_cmd_mem (sem : Sem W) :
    ∀ (l : List BStep) (s : ShellState W) (k : CmdKind) (c : Cmd),
      Event.cmd k c ∈ (execBs sem s l).trace →
      Event.cmd k c ∈ s.trace ∨ c ∈ l.flatMap bstepCmds := by
  intro l
  induction l with
  | nil => intro s k c h; exact Or.inl h
  | cons b rest ih =>
      intro s k c h
      rw [execBs] at h
      rcases ih (execB sem s b) k c h with h1 | h1
      · rcases execB_cmd_mem sem b s k c h1 with h2 | h2
        · exact Or.inl h2
        · exact Or.inr (by simp [List.mem_flatMap]; exact Or.inl h2)
      · exact Or.inr (by simp only [List.flatMap_cons]; exact List.mem_append_right _ h1)

/-- Every command event a step adds to the trace is one of the step's
commands. -/
theorem execStep_cmd_mem (sem : Sem W) (st : Step) (s : ShellState W)
    (k : CmdKind) (c : Cmd) (h : Event.cmd k c ∈ (execStep sem s st).trace) :
    Event.cmd k c ∈ s.trace ∨ c ∈ stepCmds st := by
  cases st with
  | basic b =>
      rcases execB_cmd_mem sem b s k c h with h1 | h1
      · exact Or.inl h1
      · exact Or.inr h1
  | check c' thenB elseB =>
      by_cases he : s.exited.isSome
      · rw [execStep_exited sem s _ he] at h
        exact Or.inl h
      · have he' : s.exited = none := Option.not_isSome_iff_eq_none.mp he
        rw [execStep] at h
        simp only [he', Option.isSome_none, Bool.false_eq_true, if_false] at h
        by_cases hok : sem.ok s.world c' = true
        · rw [if_pos hok] at h
          rcases execBs_cmd_mem sem thenB _ k c h with h1 | h1
          · rcases List.mem_append.mp h1 with h2 | h2
            · exact Or.inl h2
            · simp only [List.mem_singleton, Event.cmd.injEq] at h2
              exact Or.inr (by simp [stepCmds, h2.2])
          · exact Or.inr (by
              simp only [stepCmds]
              exact List.mem_cons_of_mem _ (List.mem_append_left _ h1))
        · rw [if_neg hok] at h
          rcases execBs_cmd_mem sem elseB _ k c h with h1 | h1
          · rcases List.mem_append.mp h1 with h2 | h2
            · exact Or.inl h2
            · simp only [List.mem_singleton, Event.cmd.injEq] at h2
              exact Or.inr (by simp [stepCmds, h2.2])
          · exact Or.inr (by
              simp only [stepCmds]
              exact List.mem_cons_of_mem _ (List.mem_append_right _ h1))

/-- Every command event of a script run is one of the script's commands. -/
theorem execScript_cmd_mem (sem : Sem W) :
    ∀ (steps : List Step) (s : ShellState W) (k : CmdKind) (c : Cmd),
      Event.cmd k c ∈ (execScript sem steps s).trace →
      Event.cmd k c ∈ s.trace ∨ c ∈ scriptCmds steps := by
  intro steps
  induction steps with
  | nil => intro s k c h; exact Or.inl h
  | cons st rest ih =>
      intro s k c h
      rw [execScript] at h
      rcases ih (execStep sem s st) k c h with h1 | h1
      · rcases execStep_cmd_mem sem st s k c h1 with h2 | h2
        · exact Or.inl h2
        · exact Or.inr (by
            simp only [scriptCmds, List.flatMap_cons]
            exact List.mem_append_left _ h2)
      · exact Or.inr (by
          simp only [scriptCmds, List.flatMap_cons]
          exact List.mem_append_right _ h1)

/-- Every AWS CLI command the setup script can issue is built through
`aws_cmd` and therefore carries the profile prefix. -/
theorem setupScript_cmds_pre (p acct : String) :
    ∀ c ∈ scriptCmds (setupScript p acct), c.pre = profilePre p := by
  intro c hc
  have hs : scriptCmds (setupScript p acct) =
      [stsGetCallerIdentity p, stsGetAccount p, getOidcProvider p acct,
       createOidcProvider p, getRole p WORKSHOP_ROLE_NAME, putWorkshopPolicy p,
       createWorkshopRole p, putWorkshopPolicy p, getRole p LAMBDA_EXECUTION_ROLE_NAME,
       putLambdaPolicy p, createLambdaRole p, putLambdaPolicy p] := by
    simp [scriptCmds, setupScript, stepCmds, bstepCmds]
  rw [hs] at hc
  fin_cases hc <;> rfl

/-- Every AWS CLI command the cleanup script can issue is built through
`aws_cmd` and therefore carries the profile prefix. -/
theorem cleanupScript_cmds_pre (p : String) (L : CleanupListings) :
    ∀ c ∈ scriptCmds (cleanupScript p L), c.pre = profilePre p := by
  intro c hc
  simp only [scriptCmds, cleanupScript, functionBlock, roleBlock, policyBlock,
    List.flatMap_append, List.flatMap_cons, List.flatMap_nil, List.flatMap_map,
    Function.comp, List.mem_append, List.mem_cons, List.mem_flatMap, List.mem_map,
    List.not_mem_nil, or_false, stepCmds, bstepCmds, List.append_nil,
    List.nil_append, List.cons_append, List.flatMap_assoc] at hc
  rcases hc with rfl | rfl |
    ((((((⟨f, hf, rfl | rfl | rfl⟩ | rfl) |
      ⟨r, hr, rfl | (((⟨x, hx, rfl⟩ | rfl) | ⟨y, hy, rfl⟩) | rfl)⟩) | rfl) |
      ⟨a, ha, rfl | ⟨z, hz, rfl⟩ | rfl⟩) | rfl) | ⟨g, hg, rfl⟩) <;> rfl

/-- C10: profile threading. Every AWS CLI command either parameterized
script issues goes through the `aws_cmd` wrapper, so under any oracle
every command in the run's trace carries exactly the wrapper's prefix:
`--profile p` when a non-empty profile was parsed, and no `--profile`
flag otherwise. -/
theorem profile_threading (p acct : String) (L : CleanupListings)
    (w : Cmd → Nat) (k : CmdKind) (c : Cmd) :
    (Event.cmd k c ∈ (execScript OracleSem (setupScript p acct) (initState w [])).trace →
      c.pre = profilePre p) ∧
    (Event.cmd k c ∈ (execScript OracleSem (cleanupScript p L) (initState w [])).trace →
      c.pre = profilePre p) := by
  constructor
  · intro h
    rcases execScript_cmd_mem OracleSem (setupScript p acct) (initState w []) k c h with h1 | h1
    · simp [initState] at h1
    · exact setupScript_cmds_pre p acct c h1
  · intro h
    rcases execScript_cmd_mem OracleSem (cleanupScript p L) (initState w []) k c h with h1 | h1
    · simp [initState] at h1
    · exact cleanupScript_cmds_pre p L c h1

/-- Witness for `profile_threading`: in a concrete setup run with profile
`myprof`, the traced credentials-test command carries
`--profile myprof`. -/
theorem profile_threading_witness :
    (stsGetCallerIdentity "myprof").pre = profilePre "myprof" :=
  (profile_threading "myprof" "123456789012" exampleListings (fun _ => 0)
    .plain (stsGetCallerIdentity "myprof")).1 (by decide)

/-! ## C5: idempotence of setup provisioning -/

/-- After an upsert the key is present. -/
theorem putPolicyDoc_key_present (l : List ((String × String) × String))
    (k : String × String) (d : String) :
    (putPolicyDoc l k d).any (fun e => decide (e.1 = k)) = true := by
  unfold putPolicyDoc
  by_cases h : l.any (fun e => decide (e.1 = k)) = true
  · rw [if_pos h]
    rcases List.any_eq_true.mp h with ⟨e, he, hek⟩
    simp only [decide_eq_true_eq] at hek
    apply List.any_eq_true.mpr
    exact ⟨(k, d), by
      refine List.mem_map.mpr ⟨e, he, ?_⟩
      simp [hek], by simp⟩
  · rw [if_neg h]
    apply List.any_eq_true.mpr
    exact ⟨(k, d), List.mem_append_right _ (List.mem_singleton.mpr rfl), by simp⟩

/-- After an upsert every entry at the key holds the new document. -/
theorem putPolicyDoc_key_val (l : List ((String × String) × String))
    (k : String × String) (d : String) :
    ∀ e ∈ putPolicyDoc l k d, e.1 = k → e.2 = d := by
  intro e he hek
  unfold putPolicyDoc at he
  by_cases h : l.any (fun e => decide (e.1 = k)) = true
  · rw [if_pos h] at he
    rcases List.mem_map.mp he with ⟨e0, he0, heq⟩
    by_cases h0 : e0.1 = k
    · rw [if_pos h0] at heq
      rw [← heq]
    · rw [if_neg h0] at heq
      subst heq
      exact absurd hek h0
  · rw [if_neg h] at he
    rcases List.mem_append.mp he with h1 | h1
    · exact absurd (List.any_eq_true.mpr ⟨e, h1, by simp [hek]⟩) h
    · rw [List.mem_singleton.mp h1]

/-- An upsert preserves the presence of other keys (and of the key
itself). -/
theorem putPolicyDoc_key_present_mono (l : List ((String × String) × String))
    (k k' : String × String) (d : String)
    (h : l.any (fun e => decide (e.1 = k')) = true) :
    (putPolicyDoc l k d).any (fun e => decide (e.1 = k')) = true := by
  unfold putPolicyDoc
  rcases List.any_eq_true.mp h with ⟨e, he, hek⟩
  simp only [decide_eq_true_eq] at hek
  by_cases hp : l.any (fun e => decide (e.1 = k)) = true
  · rw [if_pos hp]
    apply List.any_eq_true.mpr
    by_cases h0 : e.1 = k
    · exact ⟨(k, d), List.mem_map.mpr ⟨e, he, by simp [h0]⟩, by simp [← hek, h0]⟩
    · exact ⟨e, List.mem_map.mpr ⟨e, he, by simp [h0]⟩, by simp [hek]⟩
  · rw [if_neg hp]
    exact List.any_eq_true.mpr ⟨e, List.mem_append_left _ he, by simp [hek]⟩

/-- An upsert at one key preserves the values stored at a different key. -/
theorem putPolicyDoc_key_val_other (l : List ((String × String) × String))
    (k k' : String × String) (d d' : String) (hkk : k' ≠ k)
    (h : ∀ e ∈ l, e.1 = k' → e.2 = d') :
    ∀ e ∈ putPolicyDoc l k d, e.1 = k' → e.2 = d' := by
  intro e he hek
  unfold putPolicyDoc at he
  by_cases hp : l.any (fun e => decide (e.1 = k)) = true
  · rw [if_pos hp] at he
    rcases List.mem_map.mp he with ⟨e0, he0, heq⟩
    by_cases h0 : e0.1 = k
    · rw [if_pos h0] at heq
      rw [← heq] at hek
      exact absurd hek (fun hh => hkk hh.symm)
    · rw [if_neg h0] at heq
      subst heq
      exact h e0 he0 hek
  · rw [if_neg hp] at he
    rcases List.mem_append.mp he with h1 | h1
    · exact h e h1 hek
    · rw [List.mem_singleton.mp h1] at hek
      exact absurd hek (fun hh => hkk hh.symm)

/-- An upsert whose key is already present with exactly the new document
is the identity. -/
theorem putPolicyDoc_eq_self (l : List ((String × String) × String))
    (k : String × String) (d : String)
    (hpres : l.any (fun e => decide (e.1 = k)) = true)
    (hval : ∀ e ∈ l, e.1 = k → e.2 = d) :
    putPolicyDoc l k d = l := by
  unfold putPolicyDoc
  rw [if_pos hpres]
  have : ∀ e ∈ l, (if e.1 = k then (k, d) else e) = e := by
    intro e he
    by_cases h0 : e.1 = k
    · rw [if_pos h0]
      have h2 := hval e he h0
      exact (Prod.ext_iff.mpr ⟨h0, h2⟩).symm
    · rw [if_neg h0]
  calc l.map (fun e => if e.1 = k then (k, d) else e) = l.map id :=
        List.map_congr_left (fun e he => by rw [this e he]; rfl)
    _ = l := List.map_id l

/-- The setup script always completes under the AWS-state semantics, and
its final world has the OIDC provider, both roles, and exactly the two
upserted inline role policies on top of the initial state. -/
theorem setup_first_run_world (p acct : String) (w0 : AwsSetupState) :
    (execScript SetupSem (setupScript p acct) (initState w0 [])).exited = none ∧
    (execScript SetupSem (setupScript p acct) (initState w0 [])).world.oidc = true ∧
    (execScript SetupSem (setupScript p acct) (initState w0 [])).world.roles.contains
      WORKSHOP_ROLE_NAME = true ∧
    (execScript SetupSem (setupScript p acct) (initState w0 [])).world.roles.contains
      LAMBDA_EXECUTION_ROLE_NAME = true ∧
    (execScript SetupSem (setupScript p acct) (initState w0 [])).world.rolePolicies =
      putPolicyDoc
        (putPolicyDoc w0.rolePolicies
          (WORKSHOP_ROLE_NAME, "LambdaWorkshopPermissions")
          "file://workshop-permissions.json")
        (LAMBDA_EXECUTION_ROLE_NAME, "LambdaWorkshopExecutionPermissions")
        "file://lambda-execution-permissions.json" := by
  cases h0 : w0.oidc <;>
  by_cases h1 : "GitHubActions-Lambda-Workshop" ∈ w0.roles <;>
  by_cases h2 : "Lambda-Execution-Role-Workshop" ∈ w0.roles <;>
    simp [execScript, execStep, execB, execBs, SetupSem, setupScript, initState,
      stsGetCallerIdentity, stsGetAccount, getOidcProvider, createOidcProvider, getRole,
      createWorkshopRole, putWorkshopPolicy, createLambdaRole, putLambdaPolicy, aws_cmd,
      WORKSHOP_ROLE_NAME, LAMBDA_EXECUTION_ROLE_NAME, h0, h1, h2]

/-- Rebuilding a setup world with the same policies is the identity. -/
theorem awsSetupState_eta (w : AwsSetupState)
    (X : List ((String × String) × String)) (h : X = w.rolePolicies) :
    AwsSetupState.mk w.oidc w.roles X = w := by
  cases w
  subst h
  rfl

/-- C5: setup provisioning is idempotent. Under the AWS-state semantics a
second run of the setup script against the state produced by a first run
(which always completes) issues no `create-open-id-connect-provider` and
no `create-role` — its trace is exactly the all-exists/update path — and
leaves the AWS state exactly as the first run left it.  The emitted role
ARNs are `workshopRoleArn acct` and `lambdaExecutionRoleArn acct` in both
runs: they are computed from the queried account id alone, so they too
are unchanged. -/
theorem setup_idempotent (p acct : String) (w0 : AwsSetupState) :
    (execScript SetupSem (setupScript p acct)
        (initState (execScript SetupSem (setupScript p acct) (initState w0 [])).world [])).trace =
      [Event.cmd .plain (stsGetCallerIdentity p),
       Event.cmd .plain (stsGetAccount p),
       Event.cmd .check (getOidcProvider p acct),
       Event.fileWrite "trust-policy.json",
       Event.fileWrite "workshop-permissions.json",
       Event.cmd .check (getRole p WORKSHOP_ROLE_NAME),
       Event.cmd .plain (putWorkshopPolicy p),
       Event.fileWrite "lambda-trust-policy.json",
       Event.fileWrite "lambda-execution-permissions.json",
       Event.cmd .check (getRole p LAMBDA_EXECUTION_ROLE_NAME),
       Event.cmd .plain (putLambdaPolicy p),
       Event.fileRemove "trust-policy.json",
       Event.fileRemove "workshop-permissions.json",
       Event.fileRemove "lambda-trust-policy.json",
       Event.fileRemove "lambda-execution-permissions.json"] ∧
    (execScript SetupSem (setupScript p acct)
        (initState (execScript SetupSem (setupScript p acct) (initState w0 [])).world [])).world =
      (execScript SetupSem (setupScript p acct) (initState w0 [])).world ∧
    (execScript SetupSem (setupScript p acct)
        (initState (execScript SetupSem (setupScript p acct) (initState w0 [])).world [])).exited =
      none := by
  obtain ⟨hx1, ho, hW, hL, hrp⟩ := setup_first_run_world p acct w0
  set w1 := (execScript SetupSem (setupScript p acct) (initState w0 [])).world with hw1
  have hW2 : "GitHubActions-Lambda-Workshop" ∈ w1.roles := by
    simpa [WORKSHOP_ROLE_NAME] using hW
  have hL2 : "Lambda-Execution-Role-Workshop" ∈ w1.roles := by
    simpa [LAMBDA_EXECUTION_ROLE_NAME] using hL
  refine ⟨?_, ?_, ?_⟩
  · simp [execScript, execStep, execB, execBs, SetupSem, setupScript, initState,
      stsGetCallerIdentity, stsGetAccount, getOidcProvider, createOidcProvider, getRole,
      createWorkshopRole, putWorkshopPolicy, createLambdaRole, putLambdaPolicy, aws_cmd,
      WORKSHOP_ROLE_NAME, LAMBDA_EXECUTION_ROLE_NAME, ho, hW2, hL2]
  · have hput :
        putPolicyDoc
          (putPolicyDoc w1.rolePolicies
            (WORKSHOP_ROLE_NAME, "LambdaWorkshopPermissions")
            "file://workshop-permissions.json")
          (LAMBDA_EXECUTION_ROLE_NAME, "LambdaWorkshopExecutionPermissions")
          "file://lambda-execution-permissions.json" = w1.rolePolicies := by
      rw [hrp]
      have hkk : (WORKSHOP_ROLE_NAME, "LambdaWorkshopPermissions") ≠
          (LAMBDA_EXECUTION_ROLE_NAME, "LambdaWorkshopExecutionPermissions") := by
        simp [WORKSHOP_ROLE_NAME, LAMBDA_EXECUTION_ROLE_NAME]
      have presW := putPolicyDoc_key_present_mono
        (putPolicyDoc w0.rolePolicies
          (WORKSHOP_ROLE_NAME, "LambdaWorkshopPermissions")
          "file://workshop-permissions.json")
        (LAMBDA_EXECUTION_ROLE_NAME, "LambdaWorkshopExecutionPermissions")
        (WORKSHOP_ROLE_NAME, "LambdaWorkshopPermissions")
        "file://lambda-execution-permissions.json"
        (putPolicyDoc_key_present w0.rolePolicies
          (WORKSHOP_ROLE_NAME, "LambdaWorkshopPermissions")
          "file://workshop-permissions.json")
      have valW := putPolicyDoc_key_val_other
        (putPolicyDoc w0.rolePolicies
          (WORKSHOP_ROLE_NAME, "LambdaWorkshopPermissions")
          "file://workshop-permissions.json")
        (LAMBDA_EXECUTION_ROLE_NAME, "LambdaWorkshopExecutionPermissions")
        (WORKSHOP_ROLE_NAME, "LambdaWorkshopPermissions")
        "file://lambda-execution-permissions.json"
        "file://workshop-permissions.json"
        hkk
        (putPolicyDoc_key_val w0.rolePolicies
          (WORKSHOP_ROLE_NAME, "LambdaWorkshopPermissions")
          "file://workshop-permissions.json")
      rw [putPolicyDoc_eq_self _ _ _ presW valW]
      exact putPolicyDoc_eq_self _ _ _
        (putPolicyDoc_key_present _ _ _)
        (putPolicyDoc_key_val _ _ _)
    simp only [execScript, execStep, execB, execBs]
    simp [SetupSem, setupScript, initState,
      stsGetCallerIdentity, stsGetAccount, getOidcProvider, createOidcProvider, getRole,
      createWorkshopRole, putWorkshopPolicy, createLambdaRole, putLambdaPolicy, aws_cmd,
      WORKSHOP_ROLE_NAME, LAMBDA_EXECUTION_ROLE_NAME, ho, hW2, hL2]
    have h2 : putPolicyDoc
        (putPolicyDoc w1.rolePolicies
          ("GitHubActions-Lambda-Workshop", "LambdaWorkshopPermissions")
          "file://workshop-permissions.json")
        ("Lambda-Execution-Role-Workshop", "LambdaWorkshopExecutionPermissions")
        "file://lambda-execution-permissions.json" = w1.rolePolicies := by
      have h3 := hput
      simp only [WORKSHOP_ROLE_NAME, LAMBDA_EXECUTION_ROLE_NAME] at h3
      exact h3
    rw [h2, ← ho]
  · simp [execScript, execStep, execB, execBs, SetupSem, setupScript, initState,
      stsGetCallerIdentity, stsGetAccount, getOidcProvider, createOidcProvider, getRole,
      createWorkshopRole, putWorkshopPolicy, createLambdaRole, putLambdaPolicy, aws_cmd,
      WORKSHOP_ROLE_NAME, LAMBDA_EXECUTION_ROLE_NAME, ho, hW2, hL2]

/-! ## C4: cleanup deletion order -/

/-- Scripts compose by sequencing. -/
theorem execScript_append (sem : Sem W) :
    ∀ (l1 l2 : List Step) (s : ShellState W),
      execScript sem (l1 ++ l2) s = execScript sem l2 (execScript sem l1 s) := by
  intro l1
  induction l1 with
  | nil => intro l2 s; rfl
  | cons st rest ih =>
      intro l2 s
      rw [List.cons_append, execScript, execScript, ih]

/-- A list of plain commands that the cleanup semantics neither fails,
monitors, nor applies leaves the run state's world, exit status and
monitor unchanged. -/
theorem execScript_runs_inert :
    ∀ (steps : List Step) (s : ShellState AwsCleanupState),
      s.exited = none →
      (∀ st ∈ steps, ∃ c, st = Step.basic (.run c) ∧
        c.name ≠ "lambda get-function-url-config" ∧
        c.name ≠ "lambda delete-function" ∧
        c.name ≠ "iam delete-role" ∧
        c.name ≠ "lambda delete-function-url-config" ∧
        c.name ≠ "iam detach-role-policy" ∧
        c.name ≠ "iam delete-role-policy") →
      (execScript CleanupSem steps s).exited = none ∧
      (execScript CleanupSem steps s).bad = s.bad ∧
      (execScript CleanupSem steps s).world = s.world := by
  intro steps
  induction steps with
  | nil => intro s he _; exact ⟨he, rfl, rfl⟩
  | cons st rest ih =>
      intro s he hn
      obtain ⟨c, rfl, h1, h2, h3, h4, h5, h6⟩ := hn _ (List.mem_cons_self _ _)
      have hok : CleanupSem.ok s.world c = true := by
        simp only [CleanupSem, if_neg h1]
      have hbad : CleanupSem.bad s.world c = false := by
        simp only [CleanupSem, if_neg h2, if_neg h3]
      have happ : CleanupSem.apply s.world c = s.world := by
        simp only [CleanupSem, if_neg h4, if_neg h5, if_neg h6]
      rw [execScript,
        show execStep CleanupSem s (.basic (.run c)) = execB CleanupSem s (.run c) from rfl]
      have hstep : execB CleanupSem s (.run c) =
          { s with trace := s.trace ++ [Event.cmd .plain c] } := by
        simp [execB, he, hok, hbad, happ]
      rw [hstep]
      exact ih _ he (fun st' hst' => hn st' (List.mem_cons_of_mem _ hst'))

/-- A list of plain commands that the cleanup semantics neither fails nor
monitors (but may apply) preserves the exit status and the monitor. -/
theorem execScript_runs_safe :
    ∀ (steps : List Step) (s : ShellState AwsCleanupState),
      s.exited = none →
      (∀ st ∈ steps, ∃ c, st = Step.basic (.run c) ∧
        c.name ≠ "lambda get-function-url-config" ∧
        c.name ≠ "lambda delete-function" ∧
        c.name ≠ "iam delete-role") →
      (execScript CleanupSem steps s).exited = none ∧
      (execScript CleanupSem steps s).bad = s.bad := by
  intro steps
  induction steps with
  | nil => intro s he _; exact ⟨he, rfl⟩
  | cons st rest ih =>
      intro s he hn
      obtain ⟨c, rfl, h1, h2, h3⟩ := hn _ (List.mem_cons_self _ _)
      have hok : CleanupSem.ok s.world c = true := by
        simp only [CleanupSem, if_neg h1]
      have hbad : CleanupSem.bad s.world c = false := by
        simp only [CleanupSem, if_neg h2, if_neg h3]
      rw [execScript,
        show execStep CleanupSem s (.basic (.run c)) = execB CleanupSem s (.run c) from rfl]
      have hstep : execB CleanupSem s (.run c) =
          { s with trace := s.trace ++ [Event.cmd .plain c],
                   world := CleanupSem.apply s.world c } := by
        simp [execB, he, hok, hbad]
      rw [hstep]
      exact ih _ he (fun st' hst' => hn st' (List.mem_cons_of_mem _ hst'))

/-- One iteration of the cleanup script's function loop: the URL config is
checked and (when present) deleted before `delete-function`, so the
monitor never fires; role attachments are untouched. -/
theorem cleanup_function_block (p f : String) (s : ShellState AwsCleanupState)
    (he : s.exited = none) :
    (execScript CleanupSem (functionBlock p f) s).exited = none ∧
    (execScript CleanupSem (functionBlock p f) s).bad = s.bad ∧
    (execScript CleanupSem (functionBlock p f) s).world.attached = s.world.attached ∧
    (execScript CleanupSem (functionBlock p f) s).world.inlinePolicies =
      s.world.inlinePolicies := by
  cases hu : s.world.hasUrl f <;>
    simp [execScript, execStep, execB, execBs, CleanupSem, functionBlock,
      getFunctionUrlConfig, deleteFunctionUrlConfig, deleteFunction, aws_cmd,
      he, hu, Function.update_same]

/-- The cleanup script's whole function loop never fires the monitor and
leaves role attachments untouched. -/
theorem cleanup_funcs_stage (p : String) :
    ∀ (fns : List String) (s : ShellState AwsCleanupState),
      s.exited = none →
      (execScript CleanupSem (fns.flatMap (functionBlock p)) s).exited = none ∧
      (execScript CleanupSem (fns.flatMap (functionBlock p)) s).bad = s.bad ∧
      (execScript CleanupSem (fns.flatMap (functionBlock p)) s).world.attached =
        s.world.attached ∧
      (execScript CleanupSem (fns.flatMap (functionBlock p)) s).world.inlinePolicies =
        s.world.inlinePolicies := by
  intro fns
  induction fns with
  | nil => intro s he; exact ⟨he, rfl, rfl, rfl⟩
  | cons f rest ih =>
      intro s he
      rw [List.flatMap_cons, execScript_append]
      obtain ⟨b1, b2, b3, b4⟩ := cleanup_function_block p f s he
      obtain ⟨i1, i2, i3, i4⟩ := ih (execScript CleanupSem (functionBlock p f) s) b1
      exact ⟨i1, by rw [i2, b2], by rw [i3, b3], by rw [i4, b4]⟩

/-- The detach loop of a role iteration: detaching every policy the
script listed empties the role's attachments (whether or not they were
already gone), touches no other role, and never fires the monitor. -/
theorem cleanup_detach_fold (p r : String) :
    ∀ (l : List String) (s : ShellState AwsCleanupState),
      s.exited = none →
      (s.world.attached r = l ∨ s.world.attached r = []) →
      (execScript CleanupSem
          (l.map (fun a => Step.basic (.run (detachRolePolicy p r a)))) s).exited = none ∧
      (execScript CleanupSem
          (l.map (fun a => Step.basic (.run (detachRolePolicy p r a)))) s).bad = s.bad ∧
      (execScript CleanupSem
          (l.map (fun a => Step.basic (.run (detachRolePolicy p r a)))) s).world.attached r = [] ∧
      (∀ r2, r2 ≠ r →
        (execScript CleanupSem
            (l.map (fun a => Step.basic (.run (detachRolePolicy p r a)))) s).world.attached r2 =
          s.world.attached r2) ∧
      (execScript CleanupSem
          (l.map (fun a => Step.basic (.run (detachRolePolicy p r a)))) s).world.inlinePolicies =
        s.world.inlinePolicies := by
  intro l
  induction l with
  | nil =>
      intro s he ha
      refine ⟨he, rfl, ?_, fun r2 _ => rfl, rfl⟩
      rcases ha with ha | ha <;> exact ha
  | cons a rest ih =>
      intro s he ha
      rw [List.map_cons, execScript]
      have hstep : execStep CleanupSem s (.basic (.run (detachRolePolicy p r a))) =
          { s with trace := s.trace ++ [Event.cmd .plain (detachRolePolicy p r a)], world := { s.world with attached := Function.update s.world.attached r ((s.world.attached r).erase a) } } := by
        simp [execStep, execB, CleanupSem, detachRolePolicy, aws_cmd, he]
      rw [hstep]
      have hinv : Function.update s.world.attached r ((s.world.attached r).erase a) r = rest ∨
          Function.update s.world.attached r ((s.world.attached r).erase a) r = [] := by
        rw [Function.update_same]
        rcases ha with ha | ha
        · rw [ha, List.erase_cons_head]
          exact Or.inl rfl
        · rw [ha]
          exact Or.inr rfl
      obtain ⟨i1, i2, i3, i4, i5⟩ :=
        ih { s with trace := s.trace ++ [Event.cmd .plain (detachRolePolicy p r a)], world := { s.world with attached := Function.update s.world.attached r ((s.world.attached r).erase a) } } he hinv
      refine ⟨i1, by rw [i2], i3, ?_, by rw [i5]⟩
      intro r2 hr2
      rw [i4 r2 hr2]
      exact Function.update_noteq hr2 _ _

/-- The inline-policy deletion loop of a role iteration, analogously. -/
theorem cleanup_inline_fold (p r : String) :
    ∀ (l : List String) (s : ShellState AwsCleanupState),
      s.exited = none →
      (s.world.inlinePolicies r = l ∨ s.world.inlinePolicies r = []) →
      (execScript CleanupSem
          (l.map (fun n => Step.basic (.run (deleteRolePolicy p r n)))) s).exited = none ∧
      (execScript CleanupSem
          (l.map (fun n => Step.basic (.run (deleteRolePolicy p r n)))) s).bad = s.bad ∧
      (execScript CleanupSem
          (l.map (fun n => Step.basic (.run (deleteRolePolicy p r n)))) s).world.inlinePolicies r = [] ∧
      (∀ r2, r2 ≠ r →
        (execScript CleanupSem
            (l.map (fun n => Step.basic (.run (deleteRolePolicy p r n)))) s).world.inlinePolicies r2 =
          s.world.inlinePolicies r2) ∧
      (execScript CleanupSem
          (l.map (fun n => Step.basic (.run (deleteRolePolicy p r n)))) s).world.attached =
        s.world.attached := by
  intro l
  induction l with
  | nil =>
      intro s he ha
      refine ⟨he, rfl, ?_, fun r2 _ => rfl, rfl⟩
      rcases ha with ha | ha <;> exact ha
  | cons n rest ih =>
      intro s he ha
      rw [List.map_cons, execScript]
      have hstep : execStep CleanupSem s (.basic (.run (deleteRolePolicy p r n))) =
          { s with trace := s.trace ++ [Event.cmd .plain (deleteRolePolicy p r n)], world := { s.world with inlinePolicies := Function.update s.world.inlinePolicies r ((s.world.inlinePolicies r).erase n) } } := by
        simp [execStep, execB, CleanupSem, deleteRolePolicy, aws_cmd, he]
      rw [hstep]
      have hinv : Function.update s.world.inlinePolicies r ((s.world.inlinePolicies r).erase n) r = rest ∨
          Function.update s.world.inlinePolicies r ((s.world.inlinePolicies r).erase n) r = [] := by
        rw [Function.update_same]
        rcases ha with ha | ha
        · rw [ha, List.erase_cons_head]
          exact Or.inl rfl
        · rw [ha]
          exact Or.inr rfl
      obtain ⟨i1, i2, i3, i4, i5⟩ :=
        ih { s with trace := s.trace ++ [Event.cmd .plain (deleteRolePolicy p r n)], world := { s.world with inlinePolicies := Function.update s.world.inlinePolicies r ((s.world.inlinePolicies r).erase n) } } he hinv
      refine ⟨i1, by rw [i2], i3, ?_, by rw [i5]⟩
      intro r2 hr2
      rw [i4 r2 hr2]
      exact Function.update_noteq hr2 _ _

/-- Scripts of one step execute as that step. -/
theorem execScript_singleton (sem : Sem W) (st : Step) (s : ShellState W) :
    execScript sem [st] s = execStep sem s st := rfl

/-- One iteration of the cleanup script's role loop: every attached policy
is detached and every inline policy deleted before `delete-role`, so the
monitor never fires; the iteration empties exactly this role's policies
and touches no other role. -/
theorem cleanup_role_block (p : String) (L : CleanupListings) (r : String)
    (s : ShellState AwsCleanupState) (he : s.exited = none)
    (ha : s.world.attached r = L.attached r ∨ s.world.attached r = [])
    (hi : s.world.inlinePolicies r = L.inlinePolicies r ∨ s.world.inlinePolicies r = []) :
    (execScript CleanupSem (roleBlock p L r) s).exited = none ∧
    (execScript CleanupSem (roleBlock p L r) s).bad = s.bad ∧
    (execScript CleanupSem (roleBlock p L r) s).world.attached r = [] ∧
    (execScript CleanupSem (roleBlock p L r) s).world.inlinePolicies r = [] ∧
    (∀ r2, r2 ≠ r →
      (execScript CleanupSem (roleBlock p L r) s).world.attached r2 = s.world.attached r2 ∧
      (execScript CleanupSem (roleBlock p L r) s).world.inlinePolicies r2 =
        s.world.inlinePolicies r2) := by
  rw [roleBlock, execScript_append, execScript_append, execScript_append, execScript_append,
    execScript_singleton, execScript_singleton, execScript_singleton]
  have hA : execStep CleanupSem s (.basic (.run (listAttachedRolePolicies p r))) =
      { s with trace := s.trace ++ [Event.cmd .plain (listAttachedRolePolicies p r)] } := by
    simp [execStep, execB, CleanupSem, listAttachedRolePolicies, aws_cmd, he]
  rw [hA]
  obtain ⟨d1, d2, d3, d4, d5⟩ := cleanup_detach_fold p r (L.attached r)
    { s with trace := s.trace ++ [Event.cmd .plain (listAttachedRolePolicies p r)] } he ha
  set sD := execScript CleanupSem
    ((L.attached r).map (fun a => Step.basic (.run (detachRolePolicy p r a))))
    { s with trace := s.trace ++ [Event.cmd .plain (listAttachedRolePolicies p r)] } with hsD
  have hB : execStep CleanupSem sD (.basic (.run (listRolePolicies p r))) =
      { sD with trace := sD.trace ++ [Event.cmd .plain (listRolePolicies p r)] } := by
    simp [execStep, execB, CleanupSem, listRolePolicies, aws_cmd, d1]
  rw [hB]
  have hi2 : sD.world.inlinePolicies r = L.inlinePolicies r ∨
      sD.world.inlinePolicies r = [] := by
    rw [d5]
    exact hi
  obtain ⟨e1, e2, e3, e4, e5⟩ := cleanup_inline_fold p r (L.inlinePolicies r)
    { sD with trace := sD.trace ++ [Event.cmd .plain (listRolePolicies p r)] } d1 hi2
  set sE := execScript CleanupSem
    ((L.inlinePolicies r).map (fun n => Step.basic (.run (deleteRolePolicy p r n))))
    { sD with trace := sD.trace ++ [Event.cmd .plain (listRolePolicies p r)] } with hsE
  have hattE : sE.world.attached r = [] := by
    rw [e5]
    exact d3
  have hC : execStep CleanupSem sE (.basic (.run (deleteRole p r))) =
      { sE with trace := sE.trace ++ [Event.cmd .plain (deleteRole p r)] } := by
    simp [execStep, execB, CleanupSem, deleteRole, aws_cmd, e1, hattE, e3]
  rw [hC]
  refine ⟨e1, ?_, ?_, ?_, ?_⟩
  · show sE.bad = s.bad
    rw [e2]
    show sD.bad = s.bad
    rw [d2]
  · show sE.world.attached r = []
    exact hattE
  · show sE.world.inlinePolicies r = []
    exact e3
  · intro r2 hr2
    constructor
    · show sE.world.attached r2 = s.world.attached r2
      rw [e5]
      exact d4 r2 hr2
    · show sE.world.inlinePolicies r2 = s.world.inlinePolicies r2
      rw [e4 r2 hr2, d5]

/-- The cleanup script's whole role loop, when the listings agree with the
initial state's attachments: the monitor never fires and every role's
policies are only ever emptied. -/
theorem cleanup_roles_stage (p : String) (w0 : AwsCleanupState) (L : CleanupListings)
    (hLa : L.attached = w0.attached) (hLi : L.inlinePolicies = w0.inlinePolicies) :
    ∀ (rs : List String) (s : ShellState AwsCleanupState),
      s.exited = none →
      (∀ r, s.world.attached r = w0.attached r ∨ s.world.attached r = []) →
      (∀ r, s.world.inlinePolicies r = w0.inlinePolicies r ∨ s.world.inlinePolicies r = []) →
      (execScript CleanupSem (rs.flatMap (roleBlock p L)) s).exited = none ∧
      (execScript CleanupSem (rs.flatMap (roleBlock p L)) s).bad = s.bad := by
  intro rs
  induction rs with
  | nil => intro s he _ _; exact ⟨he, rfl⟩
  | cons r rest ih =>
      intro s he hAinv hIinv
      rw [List.flatMap_cons, execScript_append]
      obtain ⟨b1, b2, b3, b4, b5⟩ := cleanup_role_block p L r s he
        (by rw [hLa]; exact hAinv r) (by rw [hLi]; exact hIinv r)
      have hAinv2 : ∀ r2, (execScript CleanupSem (roleBlock p L r) s).world.attached r2 =
          w0.attached r2 ∨ (execScript CleanupSem (roleBlock p L r) s).world.attached r2 = [] := by
        intro r2
        by_cases hr2 : r2 = r
        · subst hr2
          exact Or.inr b3
        · rw [(b5 r2 hr2).1]
          exact hAinv r2
      have hIinv2 : ∀ r2, (execScript CleanupSem (roleBlock p L r) s).world.inlinePolicies r2 =
          w0.inlinePolicies r2 ∨
          (execScript CleanupSem (roleBlock p L r) s).world.inlinePolicies r2 = [] := by
        intro r2
        by_cases hr2 : r2 = r
        · subst hr2
          exact Or.inr b4
        · rw [(b5 r2 hr2).2]
          exact hIinv r2
      obtain ⟨i1, i2⟩ := ih (execScript CleanupSem (roleBlock p L r) s) b1 hAinv2 hIinv2
      exact ⟨i1, by rw [i2, b2]⟩

/-- C4: the cleanup script deletes in dependency order. Under the
AWS-state semantics, with the script's discovery listings for attachments
and inline policies taken from the live state, the safety monitor —
which fires exactly when `delete-function` is issued while the function
still has a URL config, or `delete-role` while the role still has an
attached or inline policy — never fires, and the whole script completes. -/
theorem cleanup_deletion_order (p : String) (w0 : AwsCleanupState)
    (funcs roles pols logs : List String) (proles : String → List String) :
    (execScript CleanupSem
        (cleanupScript p
          ⟨funcs, roles, w0.attached, w0.inlinePolicies, pols, proles, logs⟩)
        (initState w0 [])).bad = false ∧
    (execScript CleanupSem
        (cleanupScript p
          ⟨funcs, roles, w0.attached, w0.inlinePolicies, pols, proles, logs⟩)
        (initState w0 [])).exited = none := by
  set L : CleanupListings :=
    ⟨funcs, roles, w0.attached, w0.inlinePolicies, pols, proles, logs⟩ with hLdef
  rw [cleanupScript]
  rw [execScript_append, execScript_append, execScript_append, execScript_append,
    execScript_append, execScript_append, execScript_append]
  obtain ⟨a1, a2, a3⟩ := execScript_runs_inert
    [Step.basic (.run (stsGetCallerIdentity p)), Step.basic (.run (lambdaListFunctions p))]
    (initState w0 []) rfl (by
      intro st hst
      rcases List.mem_cons.mp hst with rfl | hst
      · refine ⟨stsGetCallerIdentity p, rfl, ?_, ?_, ?_, ?_, ?_, ?_⟩ <;>
          simp [stsGetCallerIdentity, aws_cmd]
      · rcases List.mem_cons.mp hst with rfl | hst
        · refine ⟨lambdaListFunctions p, rfl, ?_, ?_, ?_, ?_, ?_, ?_⟩ <;>
            simp [lambdaListFunctions, aws_cmd]
        · cases hst)
  set sA := execScript CleanupSem
    [Step.basic (.run (stsGetCallerIdentity p)), Step.basic (.run (lambdaListFunctions p))]
    (initState w0 []) with hsA
  obtain ⟨f1, f2, f3, f4⟩ := cleanup_funcs_stage p L.functions sA a1
  set sF := execScript CleanupSem (L.functions.flatMap (functionBlock p)) sA with hsF
  obtain ⟨c1, c2, c3⟩ := execScript_runs_inert
    [Step.basic (.run (iamListRoles p))] sF f1 (by
      intro st hst
      rcases List.mem_cons.mp hst with rfl | hst
      · refine ⟨iamListRoles p, rfl, ?_, ?_, ?_, ?_, ?_, ?_⟩ <;>
          simp [iamListRoles, aws_cmd]
      · cases hst)
  set sR0 := execScript CleanupSem [Step.basic (.run (iamListRoles p))] sF with hsR0
  have hattR : ∀ r, sR0.world.attached r = w0.attached r ∨ sR0.world.attached r = [] := by
    intro r
    rw [c3, f3, a3]
    exact Or.inl rfl
  have hinlR : ∀ r, sR0.world.inlinePolicies r = w0.inlinePolicies r ∨
      sR0.world.inlinePolicies r = [] := by
    intro r
    rw [c3, f4, a3]
    exact Or.inl rfl
  obtain ⟨r1, r2⟩ := cleanup_roles_stage p w0 L rfl rfl L.roles sR0 c1 hattR hinlR
  set sR := execScript CleanupSem (L.roles.flatMap (roleBlock p L)) sR0 with hsR
  obtain ⟨d1, d2, d3⟩ := execScript_runs_inert
    [Step.basic (.run (iamListPolicies p))] sR r1 (by
      intro st hst
      rcases List.mem_cons.mp hst with rfl | hst
      · refine ⟨iamListPolicies p, rfl, ?_, ?_, ?_, ?_, ?_, ?_⟩ <;>
          simp [iamListPolicies, aws_cmd]
      · cases hst)
  set sP0 := execScript CleanupSem [Step.basic (.run (iamListPolicies p))] sR with hsP0
  obtain ⟨p1, p2⟩ := execScript_runs_safe (L.policies.flatMap (policyBlock p L)) sP0 d1 (by
    intro st hst
    obtain ⟨a, _, hst⟩ := List.mem_flatMap.mp hst
    simp only [policyBlock, List.cons_append, List.nil_append, List.mem_cons,
      List.mem_append, List.mem_map] at hst
    rcases hst with rfl | hst
    · refine ⟨listEntitiesForPolicy p a, rfl, ?_, ?_, ?_⟩ <;>
        simp [listEntitiesForPolicy, aws_cmd]
    · rcases hst with ⟨r0, _, rfl⟩ | hst
      · refine ⟨detachRolePolicy p r0 a, rfl, ?_, ?_, ?_⟩ <;>
          simp [detachRolePolicy, aws_cmd]
      · rcases hst with rfl | hst
        · refine ⟨deletePolicy p a, rfl, ?_, ?_, ?_⟩ <;>
            simp [deletePolicy, aws_cmd]
        · cases hst)
  set sP := execScript CleanupSem (L.policies.flatMap (policyBlock p L)) sP0 with hsP
  obtain ⟨g1, g2⟩ := execScript_runs_safe
    [Step.basic (.run (logsDescribeLogGroups p))] sP p1 (by
      intro st hst
      rcases List.mem_cons.mp hst with rfl | hst
      · refine ⟨logsDescribeLogGroups p, rfl, ?_, ?_, ?_⟩ <;>
          simp [logsDescribeLogGroups, aws_cmd]
      · cases hst)
  set sG0 := execScript CleanupSem [Step.basic (.run (logsDescribeLogGroups p))] sP with hsG0
  obtain ⟨l1, l2⟩ := execScript_runs_safe
    (L.logGroups.map (fun g => Step.basic (.run (deleteLogGroup p g)))) sG0 g1 (by
      intro st hst
      obtain ⟨g, _, rfl⟩ := List.mem_map.mp hst
      refine ⟨deleteLogGroup p g, rfl, ?_, ?_, ?_⟩ <;>
        simp [deleteLogGroup, aws_cmd])
  constructor
  · rw [l2, g2, p2, d2, r2, c2, f2, a2]
    rfl
  · exact l1

/-- Sanity check that the C4 monitor is not vacuous: issuing
`delete-function` while the function still has a URL config does fire
it. -/
theorem cleanup_monitor_fires_if_function_first :
    (execScript CleanupSem [Step.basic (.run (deleteFunction "" "demo-workshop"))]
      (initState ⟨fun _ => true, fun _ => [], fun _ => []⟩ [])).bad = true := by
  simp [execScript, execStep, execB, CleanupSem, deleteFunction, aws_cmd, initState]

/-- Sanity check that the C4 monitor is not vacuous: issuing `delete-role`
while the role still has an attached policy does fire it. -/
theorem cleanup_monitor_fires_if_role_first :
    (execScript CleanupSem [Step.basic (.run (deleteRole "" "workshop-lambda-role"))]
      (initState ⟨fun _ => false, fun _ => ["arn:aws:iam::aws:policy/AdministratorAccess"],
        fun _ => []⟩ [])).bad = true := by
  simp [execScript, execStep, execB, CleanupSem, deleteRole, aws_cmd, initState]

/-! ## C2: `set -e` abort semantics and no retries -/

/-- The truncated trace is a sublist of the full event list. -/
theorem truncAt_sublist (ok : Cmd → Bool) :
    ∀ (l : List Event), List.Sublist (truncAt ok l) l := by
  intro l
  induction l with
  | nil => exact List.Sublist.refl []
  | cons e rest ih =>
      by_cases he : failingPlain ok e = true
      · simp only [truncAt, he, if_pos]
        exact (List.singleton_sublist.mpr (List.mem_cons_self e rest))
      · have he' : failingPlain ok e = false := by
          cases hb : failingPlain ok e
          · rfl
          · exact absurd hb he
        simp only [truncAt, he', if_neg Bool.false_ne_true]
        exact List.Sublist.cons₂ e ih

/-- A failing plain command is always the last event of the truncated
trace: nothing runs after it. -/
theorem truncAt_fail_last (ok : Cmd → Bool) :
    ∀ (l t1 t2 : List Event) (e : Event),
      truncAt ok l = t1 ++ e :: t2 → failingPlain ok e = true → t2 = [] := by
  intro l
  induction l with
  | nil =>
      intro t1 t2 e h _
      rw [truncAt] at h
      exact absurd h (by simp)
  | cons x rest ih =>
      intro t1 t2 e h hfail
      by_cases hx : failingPlain ok x = true
      · rw [truncAt, if_pos hx] at h
        rcases t1 with _ | ⟨y, t1⟩
        · simp at h
          exact h.2
        · simp only [List.cons_append, List.cons.injEq] at h
          exact absurd h.2 (by simp)
      · have hx' : failingPlain ok x = false := by
          cases hb : failingPlain ok x
          · rfl
          · exact absurd hb hx
        rw [truncAt, hx', if_neg Bool.false_ne_true] at h
        rcases t1 with _ | ⟨y, t1⟩
        · simp only [List.nil_append, List.cons.injEq] at h
          rw [← h.1] at hfail
          exact absurd hfail hx
        · simp only [List.cons_append, List.cons.injEq] at h
          exact ih t1 t2 e h.2 hfail

/-- If the event list contains a failing plain command, the truncated
trace ends in one, with a clean prefix before it. -/
theorem truncAt_decomp_of_fail (ok : Cmd → Bool) :
    ∀ (l : List Event), (∃ e ∈ l, failingPlain ok e = true) →
      ∃ t1 e, truncAt ok l = t1 ++ [e] ∧ failingPlain ok e = true ∧
        ∀ x ∈ t1, failingPlain ok x = false := by
  intro l
  induction l with
  | nil => intro h; simp at h
  | cons x rest ih =>
      intro h
      by_cases hx : failingPlain ok x = true
      · exact ⟨[], x, by simp [truncAt, hx], hx, by simp⟩
      · have hx' : failingPlain ok x = false := by
          cases hb : failingPlain ok x
          · rfl
          · exact absurd hb hx
        obtain ⟨e, hemem, hefail⟩ := h
        rcases List.mem_cons.mp hemem with rfl | hemem
        · exact absurd hefail hx
        · obtain ⟨t1, e', ht, hf, hclean⟩ := ih ⟨e, hemem, hefail⟩
          refine ⟨x :: t1, e', ?_, hf, ?_⟩
          · rw [truncAt, hx', if_neg Bool.false_ne_true, ht]
            rfl
          · intro y hy
            rcases List.mem_cons.mp hy with rfl | hy
            · exact hx'
            · exact hclean y hy

/-- An event fails as a plain command exactly when it is a plain command
the oracle fails. -/
theorem failingPlain_iff (ok : Cmd → Bool) (e : Event) :
    failingPlain ok e = true ↔ ∃ c, e = Event.cmd .plain c ∧ ok c = false := by
  cases e with
  | cmd k c =>
      cases k with
      | plain =>
          constructor
          · intro h
            refine ⟨c, rfl, ?_⟩
            simpa [failingPlain] using h
          · rintro ⟨c', hc, hok⟩
            cases hc
            simp [failingPlain, hok]
      | check => simp [failingPlain]
      | orTrue => simp [failingPlain]
  | fileWrite n => simp [failingPlain]
  | fileRemove n => simp [failingPlain]

/-- `idealEvents` distributes over script concatenation. -/
theorem idealEvents_append (ok : Cmd → Bool) (l1 l2 : List Step) :
    idealEvents ok (l1 ++ l2) = idealEvents ok l1 ++ idealEvents ok l2 := by
  simp [idealEvents]

/-- The command-events of a basic-step list's events are its commands. -/
theorem countP_basicEvents (c : Cmd) (l : List BStep) :
    (l.map basicEvent).countP
        (fun e => match e with | .cmd _ c2 => decide (c2 = c) | _ => false) =
      (l.flatMap bstepCmds).countP (fun c2 => decide (c2 = c)) := by
  induction l with
  | nil => rfl
  | cons b rest ih =>
      cases b <;>
        simp [basicEvent, bstepCmds, List.countP_cons, List.countP_append, ih]

/-- A command occurs in a script's events at most as often as in the
script's command list (only one branch of each check runs). -/
theorem countCmd_ideal_le_scriptCmds (ok : Cmd → Bool) (c : Cmd) :
    ∀ (steps : List Step),
      countCmd c (idealEvents ok steps) ≤
        (scriptCmds steps).countP (fun c2 => decide (c2 = c)) := by
  intro steps
  induction steps with
  | nil => simp [countCmd, idealEvents, scriptCmds]
  | cons st rest ih =>
      rw [idealEvents_cons]
      unfold countCmd at ih ⊢
      rw [List.countP_append]
      have hs : scriptCmds (st :: rest) = stepCmds st ++ scriptCmds rest := by
        simp [scriptCmds]
      rw [hs, List.countP_append]
      have hstep : List.countP
          (fun e => match e with | .cmd _ c2 => decide (c2 = c) | _ => false)
          (stepEvents ok st) ≤
          List.countP (fun c2 => decide (c2 = c)) (stepCmds st) := by
        cases st with
        | basic b =>
            cases b <;>
              simp [stepEvents, stepCmds, basicEvent, bstepCmds,
                List.countP_cons, List.countP_nil]
        | check c0 thenB elseB =>
            simp only [stepEvents, stepCmds, List.countP_cons]
            rw [List.countP_append]
            have hb : List.countP
                (fun e => match e with | .cmd _ c2 => decide (c2 = c) | _ => false)
                ((if ok c0 then thenB else elseB).map basicEvent) ≤
                List.countP (fun c2 => decide (c2 = c)) (thenB.flatMap bstepCmds) +
                List.countP (fun c2 => decide (c2 = c)) (elseB.flatMap bstepCmds) := by
              cases hok : ok c0
              · rw [show (if (false : Bool) = true then thenB else elseB) = elseB from rfl,
                  countP_basicEvents]
                omega
              · rw [show (if (true : Bool) = true then thenB else elseB) = thenB from rfl,
                  countP_basicEvents]
                omega
            omega
      omega

/-- Abort characterisation of any script run from a fresh state: the run
completes exactly when no plain command in its trace fails, and an abort
propagates the failing plain command's own exit status (`set -e`), that
command being the very last event of the trace — nothing runs after it,
and check or `|| true` failures never cause it. -/
theorem script_abort_char (w : Cmd → Nat) (steps : List Step) :
    (execScript OracleSem steps (initState w [])).trace =
      truncAt (okOf w) (idealEvents (okOf w) steps) ∧
    ((execScript OracleSem steps (initState w [])).exited = none ↔
      ∀ e ∈ (execScript OracleSem steps (initState w [])).trace,
        failingPlain (okOf w) e = false) ∧
    (∀ n, (execScript OracleSem steps (initState w [])).exited = some n →
      ∃ t1 c, (execScript OracleSem steps (initState w [])).trace =
        t1 ++ [Event.cmd .plain c] ∧ okOf w c = false ∧ n = w c ∧
        ∀ e ∈ t1, failingPlain (okOf w) e = false) := by
  obtain ⟨hw, ht, he, hx⟩ := execScript_oracle w steps (initState w []) rfl rfl
  rw [show (initState w [] : ShellState (Cmd → Nat)).trace = [] from rfl,
    List.nil_append] at ht
  refine ⟨ht, ?_, ?_⟩
  · rw [he, ht]
    constructor
    · intro hall e hemem
      exact hall e ((truncAt_sublist (okOf w) _).subset hemem)
    · intro hall
      by_contra hcon
      have hex : ∃ e ∈ idealEvents (okOf w) steps, failingPlain (okOf w) e = true := by
        by_contra hcon2
        apply hcon
        intro e hemem
        cases hfe : failingPlain (okOf w) e
        · rfl
        · exact absurd ⟨e, hemem, hfe⟩ hcon2
      obtain ⟨t1, e, hdec, hfail, _⟩ := truncAt_decomp_of_fail (okOf w) _ hex
      have hmem : e ∈ truncAt (okOf w) (idealEvents (okOf w) steps) := by
        rw [hdec]
        exact List.mem_append_right _ (List.mem_singleton.mpr rfl)
      have hfalse := hall e hmem
      rw [hfalse] at hfail
      exact absurd hfail (by simp)
  · intro n hn
    rcases hx with h | ⟨c, hcf, hex, t1x, htrx⟩
    · rw [hn] at h; cases h
    have hnc : n = w c := by
      rw [hn] at hex
      exact Option.some.inj hex
    have hnone : ¬ ((execScript OracleSem steps (initState w [])).exited = none) := by
      rw [hn]; simp
    rw [he] at hnone
    have hex2 : ∃ e ∈ idealEvents (okOf w) steps, failingPlain (okOf w) e = true := by
      by_contra hcon2
      apply hnone
      intro e hemem
      cases hfe : failingPlain (okOf w) e
      · rfl
      · exact absurd ⟨e, hemem, hfe⟩ hcon2
    obtain ⟨t1, e, hdec, hfail, hclean⟩ := truncAt_decomp_of_fail (okOf w) _ hex2
    obtain ⟨c2, rfl, hokc2⟩ := (failingPlain_iff (okOf w) e).mp hfail
    have hceq : c2 = c := by
      have h1 : (execScript OracleSem steps (initState w [])).trace =
          t1 ++ [Event.cmd .plain c2] := by rw [ht, hdec]
      have h12 := h1.symm.trans htrx
      have hrev := congrArg List.reverse h12
      simp only [List.reverse_append, List.reverse_cons, List.reverse_nil,
        List.nil_append, List.singleton_append] at hrev
      have hhead := (List.cons.injEq _ _ _ _).mp hrev
      exact ((Event.cmd.injEq _ _ _ _).mp hhead.1).2
    exact ⟨t1, c2, by rw [ht, hdec], hokc2, by rw [hnc, hceq], hclean⟩

/-- A script run never repeats a failed command, provided every command
that can occur as a check or `|| true` occurs at most once among the
script's events. -/
theorem noRetry_of_checks (ok : Cmd → Bool) (steps : List Step)
    (H : ∀ k c, Event.cmd k c ∈ idealEvents ok steps → k ≠ CmdKind.plain →
      countCmd c (idealEvents ok steps) ≤ 1) :
    NoRetry ok (truncAt ok (idealEvents ok steps)) := by
  intro t1 k c t2 hsplit hokc k2 hmem
  by_cases hk : k = CmdKind.plain
  · subst hk
    have hfail : failingPlain ok (Event.cmd .plain c) = true := by
      simp [failingPlain, hokc]
    have h0 := truncAt_fail_last ok _ t1 t2 _ hsplit hfail
    rw [h0] at hmem
    cases hmem
  · have hentry : Event.cmd k c ∈ idealEvents ok steps := by
      apply (truncAt_sublist ok _).subset
      rw [hsplit]
      exact List.mem_append_right _ (List.mem_cons_self _ _)
    have hcount := H k c hentry hk
    have h2 : 2 ≤ countCmd c (truncAt ok (idealEvents ok steps)) := by
      rw [hsplit]
      unfold countCmd
      rw [List.countP_append, List.countP_cons_of_pos _ _ (by simp)]
      have hp2 : 0 < List.countP
          (fun e => match e with | Event.cmd _ c2 => decide (c2 = c) | _ => false) t2 :=
        List.countP_pos_iff.mpr ⟨Event.cmd k2 c, hmem, by simp⟩
      omega
    have hmono : countCmd c (truncAt ok (idealEvents ok steps)) ≤
        countCmd c (idealEvents ok steps) := by
      unfold countCmd
      exact List.Sublist.countP_le _ (truncAt_sublist ok _)
    omega

/-- Scripts consisting only of plain commands emit only plain command
events. -/
theorem idealEvents_runs_plain (ok : Cmd → Bool) :
    ∀ (steps : List Step), (∀ st ∈ steps, ∃ c0, st = Step.basic (.run c0)) →
      ∀ k c, Event.cmd k c ∈ idealEvents ok steps → k = CmdKind.plain := by
  intro steps hrun k c hmem
  obtain ⟨st, hst, hev⟩ := List.mem_flatMap.mp hmem
  obtain ⟨c0, rfl⟩ := hrun st hst
  simp only [stepEvents, basicEvent, List.mem_singleton] at hev
  cases hev
  rfl

/-- The only non-plain command events of the cleanup script's function
loop are the URL-config check and the `|| true` URL-config deletion. -/
theorem cleanup_funcs_ideal_char (ok : Cmd → Bool) (p : String) :
    ∀ (fns : List String) (k : CmdKind) (c : Cmd),
      Event.cmd k c ∈ idealEvents ok (fns.flatMap (functionBlock p)) →
      k ≠ CmdKind.plain →
      ∃ F ∈ fns, c = getFunctionUrlConfig p F ∨ c = deleteFunctionUrlConfig p F := by
  intro fns k c hmem hk
  rw [show idealEvents ok (fns.flatMap (functionBlock p)) =
      fns.flatMap (fun f => idealEvents ok (functionBlock p f)) from by
    simp [idealEvents, List.flatMap_assoc]] at hmem
  obtain ⟨F, hF, hev⟩ := List.mem_flatMap.mp hmem
  refine ⟨F, hF, ?_⟩
  cases hok : ok (getFunctionUrlConfig p F) <;>
    simp only [idealEvents, functionBlock, List.flatMap_cons, List.flatMap_nil,
      List.append_nil, stepEvents, basicEvent, hok, Bool.false_eq_true, if_false,
      if_true, List.map_cons, List.map_nil, List.nil_append, List.cons_append,
      List.mem_cons, List.not_mem_nil, or_false, Event.cmd.injEq, hk, false_and,
      false_or] at hev
  · exact Or.inl hev.2
  · rcases hev with ⟨_, hc⟩ | ⟨_, hc⟩
    · exact Or.inl hc
    · exact Or.inr hc

/-- A flat map over distinct keys in which at most one key contributes a
matching command contains at most one match. -/
theorem count_flatMap_zero (f : String → List Cmd) (c : Cmd) :
    ∀ (l : List String), (∀ x ∈ l, List.countP (fun c2 => decide (c2 = c)) (f x) = 0) →
      List.countP (fun c2 => decide (c2 = c)) (l.flatMap f) = 0 := by
  intro l
  induction l with
  | nil => intro _; rfl
  | cons x rest ih =>
      intro h
      rw [List.flatMap_cons, List.countP_append,
        h x (List.mem_cons_self _ _), ih (fun y hy => h y (List.mem_cons_of_mem _ hy))]

/-- A flat map over a list without duplicates, in which only one key can
contribute a match and contributes at most one, has at most one match. -/
theorem count_flatMap_le_one (f : String → List Cmd) (c : Cmd) (x0 : String)
    (hx : ∀ x, x ≠ x0 → List.countP (fun c2 => decide (c2 = c)) (f x) = 0)
    (hx0 : List.countP (fun c2 => decide (c2 = c)) (f x0) ≤ 1) :
    ∀ (l : List String), l.Nodup →
      List.countP (fun c2 => decide (c2 = c)) (l.flatMap f) ≤ 1 := by
  intro l
  induction l with
  | nil => intro _; simp
  | cons x rest ih =>
      intro hnd
      rw [List.flatMap_cons, List.countP_append]
      by_cases hxx : x = x0
      · subst hxx
        have hzero : List.countP (fun c2 => decide (c2 = c)) (rest.flatMap f) = 0 := by
          apply count_flatMap_zero
          intro y hy
          apply hx
          intro hyx
          subst hyx
          exact (List.nodup_cons.mp hnd).1 hy
        omega
      · rw [hx x hxx]
        have := ih (List.nodup_cons.mp hnd).2
        omega

/-- In the setup script, every command that occurs as a check occurs only
once among the script's events, under any oracle. -/
theorem setup_checks_count (p acct : String) (ok : Cmd → Bool) :
    ∀ k c, Event.cmd k c ∈ idealEvents ok (setupScript p acct) → k ≠ CmdKind.plain →
      countCmd c (idealEvents ok (setupScript p acct)) ≤ 1 := by
  intro k c hmem hk
  have hchar : c = getOidcProvider p acct ∨ c = getRole p WORKSHOP_ROLE_NAME ∨
      c = getRole p LAMBDA_EXECUTION_ROLE_NAME := by
    cases h0 : ok (getOidcProvider p acct) <;>
    cases h1 : ok (getRole p WORKSHOP_ROLE_NAME) <;>
    cases h2 : ok (getRole p LAMBDA_EXECUTION_ROLE_NAME) <;>
    · simp only [idealEvents, setupScript, List.flatMap_cons, List.flatMap_nil,
        List.append_nil, stepEvents, basicEvent, h0, h1, h2, Bool.false_eq_true,
        if_false, if_true, List.map_cons, List.map_nil, List.nil_append,
        List.cons_append, List.singleton_append, List.mem_cons, List.not_mem_nil,
        or_false, Event.cmd.injEq, hk, false_and, false_or,
        Event.fileWrite.injEq, Event.fileRemove.injEq] at hmem
      tauto
  rcases hchar with rfl | rfl | rfl <;>
  · refine le_trans (countCmd_ideal_le_scriptCmds ok _ _) ?_
    simp [scriptCmds, setupScript, stepCmds, bstepCmds, List.countP_cons,
      getOidcProvider, stsGetCallerIdentity, stsGetAccount, createOidcProvider, getRole,
      createWorkshopRole, putWorkshopPolicy, createLambdaRole, putLambdaPolicy, aws_cmd,
      WORKSHOP_ROLE_NAME, LAMBDA_EXECUTION_ROLE_NAME, githubOidcProviderArn]

/-- A command list whose names all differ from a command's name does not
contain it. -/
theorem countP_zero_of_name (cs : List Cmd) (c : Cmd)
    (h : ∀ c2 ∈ cs, c2.name ≠ c.name) :
    List.countP (fun c2 => decide (c2 = c)) cs = 0 := by
  apply List.countP_eq_zero.mpr
  intro c2 hc2
  simp only [decide_eq_true_eq]
  intro heq
  exact h c2 hc2 (by rw [heq])

/-- In the cleanup script, every command that occurs as a check or
`|| true` (the function-URL commands) occurs at most once among the
script's events, provided the discovered function names are distinct. -/
theorem cleanup_checks_count (p : String) (L : CleanupListings) (ok : Cmd → Bool)
    (hnd : L.functions.Nodup) :
    ∀ k c, Event.cmd k c ∈ idealEvents ok (cleanupScript p L) → k ≠ CmdKind.plain →
      countCmd c (idealEvents ok (cleanupScript p L)) ≤ 1 := by
  intro k c hmem hk
  have hchar : ∃ F ∈ L.functions,
      c = getFunctionUrlConfig p F ∨ c = deleteFunctionUrlConfig p F := by
    rw [cleanupScript] at hmem
    simp only [idealEvents_append, List.mem_append] at hmem
    rcases hmem with ((((((h | h) | h) | h) | h) | h) | h) | h
    · exact absurd (idealEvents_runs_plain ok _ (by
        intro st hst
        simp only [List.mem_cons, List.not_mem_nil, or_false] at hst
        rcases hst with rfl | rfl <;> exact ⟨_, rfl⟩) k c h) hk
    · exact cleanup_funcs_ideal_char ok p L.functions k c h hk
    · exact absurd (idealEvents_runs_plain ok _ (by
        intro st hst
        simp only [List.mem_cons, List.not_mem_nil, or_false] at hst
        rw [hst]
        exact ⟨_, rfl⟩) k c h) hk
    · exact absurd (idealEvents_runs_plain ok _ (by
        intro st hst
        obtain ⟨r, _, hst⟩ := List.mem_flatMap.mp hst
        simp only [roleBlock, List.cons_append, List.nil_append, List.mem_cons,
          List.mem_append, List.mem_map, List.not_mem_nil, or_false] at hst
        rcases hst with h2 | (((⟨x, hx, h2⟩ | h2) | ⟨y, hy, h2⟩) | h2) <;>
          first
            | exact ⟨_, h2⟩
            | exact ⟨_, h2.symm⟩) k c h) hk
    · exact absurd (idealEvents_runs_plain ok _ (by
        intro st hst
        simp only [List.mem_cons, List.not_mem_nil, or_false] at hst
        rw [hst]
        exact ⟨_, rfl⟩) k c h) hk
    · exact absurd (idealEvents_runs_plain ok _ (by
        intro st hst
        obtain ⟨a, _, hst⟩ := List.mem_flatMap.mp hst
        simp only [policyBlock, List.cons_append, List.nil_append, List.mem_cons,
          List.mem_append, List.mem_map, List.not_mem_nil, or_false] at hst
        rcases hst with h2 | (⟨x, hx, h2⟩ | h2) <;>
          first
            | exact ⟨_, h2⟩
            | exact ⟨_, h2.symm⟩) k c h) hk
    · exact absurd (idealEvents_runs_plain ok _ (by
        intro st hst
        simp only [List.mem_cons, List.not_mem_nil, or_false] at hst
        rw [hst]
        exact ⟨_, rfl⟩) k c h) hk
    · exact absurd (idealEvents_runs_plain ok _ (by
        intro st hst
        obtain ⟨g, _, rfl⟩ := List.mem_map.mp hst
        exact ⟨_, rfl⟩) k c h) hk
  obtain ⟨F, hF, hc⟩ := hchar
  have hname : c.name = "lambda get-function-url-config" ∨
      c.name = "lambda delete-function-url-config" := by
    rcases hc with rfl | rfl
    · exact Or.inl rfl
    · exact Or.inr rfl
  refine le_trans (countCmd_ideal_le_scriptCmds ok c _) ?_
  rw [cleanupScript]
  simp only [scriptCmds, List.flatMap_append, List.countP_append]
  have hA : List.countP (fun c2 => decide (c2 = c))
      ([Step.basic (.run (stsGetCallerIdentity p)),
        Step.basic (.run (lambdaListFunctions p))].flatMap stepCmds) = 0 := by
    apply countP_zero_of_name
    intro c2 hc2
    simp only [List.flatMap_cons, List.flatMap_nil, stepCmds, bstepCmds,
      List.append_nil, List.singleton_append, List.mem_cons, List.not_mem_nil,
      or_false] at hc2
    rcases hc2 with rfl | rfl <;> rcases hname with hn | hn <;>
      simp [stsGetCallerIdentity, lambdaListFunctions, aws_cmd, hn]
  have h3 : List.countP (fun c2 => decide (c2 = c))
      ([Step.basic (.run (iamListRoles p))].flatMap stepCmds) = 0 := by
    apply countP_zero_of_name
    intro c2 hc2
    simp only [List.flatMap_cons, List.flatMap_nil, stepCmds, bstepCmds,
      List.append_nil, List.mem_cons, List.not_mem_nil, or_false] at hc2
    rw [hc2]
    rcases hname with hn | hn <;> simp [iamListRoles, aws_cmd, hn]
  have hR : List.countP (fun c2 => decide (c2 = c))
      ((L.roles.flatMap (roleBlock p L)).flatMap stepCmds) = 0 := by
    apply countP_zero_of_name
    intro c2 hc2
    rw [show (L.roles.flatMap (roleBlock p L)).flatMap stepCmds =
        L.roles.flatMap (fun r => scriptCmds (roleBlock p L r)) from by
      simp [scriptCmds, List.flatMap_assoc]] at hc2
    obtain ⟨r, _, hc2⟩ := List.mem_flatMap.mp hc2
    simp only [scriptCmds, roleBlock, List.flatMap_append, List.flatMap_cons,
      List.flatMap_nil, List.flatMap_map, List.mem_append, List.mem_cons,
      List.mem_flatMap, List.mem_map, List.not_mem_nil, or_false,
      stepCmds, bstepCmds, List.append_nil, List.nil_append] at hc2
    rcases hc2 with (((h2 | ⟨x, hx, h2⟩) | h2) | ⟨y, hy, h2⟩) | h2 <;>
      · rw [h2]
        rcases hname with hn | hn <;>
          simp [listAttachedRolePolicies, detachRolePolicy, listRolePolicies,
            deleteRolePolicy, deleteRole, aws_cmd, hn]
  have h4 : List.countP (fun c2 => decide (c2 = c))
      ([Step.basic (.run (iamListPolicies p))].flatMap stepCmds) = 0 := by
    apply countP_zero_of_name
    intro c2 hc2
    simp only [List.flatMap_cons, List.flatMap_nil, stepCmds, bstepCmds,
      List.append_nil, List.mem_cons, List.not_mem_nil, or_false] at hc2
    rw [hc2]
    rcases hname with hn | hn <;> simp [iamListPolicies, aws_cmd, hn]
  have hP : List.countP (fun c2 => decide (c2 = c))
      ((L.policies.flatMap (policyBlock p L)).flatMap stepCmds) = 0 := by
    apply countP_zero_of_name
    intro c2 hc2
    rw [show (L.policies.flatMap (policyBlock p L)).flatMap stepCmds =
        L.policies.flatMap (fun a => scriptCmds (policyBlock p L a)) from by
      simp [scriptCmds, List.flatMap_assoc]] at hc2
    obtain ⟨a, _, hc2⟩ := List.mem_flatMap.mp hc2
    simp only [scriptCmds, policyBlock, List.flatMap_append, List.flatMap_cons,
      List.flatMap_nil, List.flatMap_map, List.mem_append, List.mem_cons,
      List.mem_flatMap, List.mem_map, List.not_mem_nil, or_false,
      stepCmds, bstepCmds, List.append_nil, List.nil_append] at hc2
    rcases hc2 with (h2 | ⟨x, hx, h2⟩) | h2 <;>
      · rw [h2]
        rcases hname with hn | hn <;>
          simp [listEntitiesForPolicy, detachRolePolicy, deletePolicy, aws_cmd, hn]
  have h5 : List.countP (fun c2 => decide (c2 = c))
      ([Step.basic (.run (logsDescribeLogGroups p))].flatMap stepCmds) = 0 := by
    apply countP_zero_of_name
    intro c2 hc2
    simp only [List.flatMap_cons, List.flatMap_nil, stepCmds, bstepCmds,
      List.append_nil, List.mem_cons, List.not_mem_nil, or_false] at hc2
    rw [hc2]
    rcases hname with hn | hn <;> simp [logsDescribeLogGroups, aws_cmd, hn]
  have hG : List.countP (fun c2 => decide (c2 = c))
      ((L.logGroups.map (fun g => Step.basic (.run (deleteLogGroup p g)))).flatMap stepCmds) = 0 := by
    apply countP_zero_of_name
    intro c2 hc2
    rw [List.flatMap_map] at hc2
    obtain ⟨g, _, hc2⟩ := List.mem_flatMap.mp hc2
    simp only [Function.comp, stepCmds, bstepCmds, List.mem_cons,
      List.not_mem_nil, or_false] at hc2
    rw [hc2]
    rcases hname with hn | hn <;> simp [deleteLogGroup, aws_cmd, hn]
  have hF1 : List.countP (fun c2 => decide (c2 = c))
      ((L.functions.flatMap (functionBlock p)).flatMap stepCmds) ≤ 1 := by
    rw [show (L.functions.flatMap (functionBlock p)).flatMap stepCmds =
        L.functions.flatMap (fun f => scriptCmds (functionBlock p f)) from by
      simp [scriptCmds, List.flatMap_assoc]]
    have hblock : ∀ x, scriptCmds (functionBlock p x) =
        [getFunctionUrlConfig p x, deleteFunctionUrlConfig p x, deleteFunction p x] := by
      intro x
      simp [scriptCmds, functionBlock, stepCmds, bstepCmds]
    refine count_flatMap_le_one _ c F ?_ ?_ L.functions hnd
    · intro x hxF
      apply List.countP_eq_zero.mpr
      intro c2 hc2
      rw [hblock x] at hc2
      simp only [List.mem_cons, List.not_mem_nil, or_false] at hc2
      simp only [decide_eq_true_eq]
      intro heq
      rcases hc2 with rfl | rfl | rfl <;> rcases hc with rfl | rfl <;>
        simp only [getFunctionUrlConfig, deleteFunctionUrlConfig, deleteFunction,
          aws_cmd, Cmd.mk.injEq, List.cons.injEq, and_true, true_and,
          String.reduceEq, and_false, false_and] at heq <;>
        try exact hxF (by tauto)
    · rw [hblock F]
      rcases hc with rfl | rfl <;>
        simp [getFunctionUrlConfig, deleteFunctionUrlConfig, deleteFunction,
          aws_cmd, List.countP_cons]
  omega

/-! ## C2: error handling is exit-code propagation -/

/-- C2 (counterexample): the failure of a cleanup command that is neither a
plain `set -e`-governed command nor an `if ... >/dev/null 2>&1` existence
check is swallowed without aborting the script: under a status assignment
failing exactly `lambda delete-function-url-config` (with the AWS CLI
status 254), the cleanup run still issues the failing `|| true`-guarded
command, goes on to issue the subsequent `delete-function`, and completes
without exiting — so "except for commands used as `if ...` existence
checks" does not list every swallowed failure. -/
theorem cleanup_url_delete_failure_swallowed :
    failUrlDeleteOracle (deleteFunctionUrlConfig "" "demo-workshop") = 254 ∧
    Event.cmd .orTrue (deleteFunctionUrlConfig "" "demo-workshop") ∈
      (execScript OracleSem (cleanupScript "" exampleListings)
        (initState failUrlDeleteOracle [])).trace ∧
    Event.cmd .plain (deleteFunction "" "demo-workshop") ∈
      (execScript OracleSem (cleanupScript "" exampleListings)
        (initState failUrlDeleteOracle [])).trace ∧
    (execScript OracleSem (cleanupScript "" exampleListings)
      (initState failUrlDeleteOracle [])).exited = none := by
  decide

/-- C2 (amended): error handling is exit-code propagation, with one more
swallowed-failure exception than the existence checks.  For every
assignment of exit statuses to the AWS CLI commands, in both the setup
script and the cleanup script (whose discovered function names are
distinct): the run completes exactly when no plain command in its trace
fails; an abort is caused by a failing plain command, which is the last
event of the trace, and the script exits with that command's own exit
status (`set -e` propagates it) — failures of existence checks and of the
cleanup script's `|| true`-guarded `delete-function-url-config` never
abort; and no command is ever retried after it fails. -/
theorem error_propagation_no_retry (p acct : String) (L : CleanupListings)
    (w : Cmd → Nat) (hnd : L.functions.Nodup) :
    (((execScript OracleSem (setupScript p acct) (initState w [])).exited = none ↔
        ∀ e ∈ (execScript OracleSem (setupScript p acct) (initState w [])).trace,
          failingPlain (okOf w) e = false) ∧
      (∀ n, (execScript OracleSem (setupScript p acct) (initState w [])).exited =
          some n → ∃ t1 c,
          (execScript OracleSem (setupScript p acct) (initState w [])).trace =
            t1 ++ [Event.cmd .plain c] ∧ okOf w c = false ∧ n = w c ∧
          ∀ e ∈ t1, failingPlain (okOf w) e = false) ∧
      NoRetry (okOf w) (execScript OracleSem (setupScript p acct) (initState w [])).trace) ∧
    (((execScript OracleSem (cleanupScript p L) (initState w [])).exited = none ↔
        ∀ e ∈ (execScript OracleSem (cleanupScript p L) (initState w [])).trace,
          failingPlain (okOf w) e = false) ∧
      (∀ n, (execScript OracleSem (cleanupScript p L) (initState w [])).exited =
          some n → ∃ t1 c,
          (execScript OracleSem (cleanupScript p L) (initState w [])).trace =
            t1 ++ [Event.cmd .plain c] ∧ okOf w c = false ∧ n = w c ∧
          ∀ e ∈ t1, failingPlain (okOf w) e = false) ∧
      NoRetry (okOf w) (execScript OracleSem (cleanupScript p L) (initState w [])).trace) := by
  obtain ⟨ht1, he1, hx1⟩ := script_abort_char w (setupScript p acct)
  obtain ⟨ht2, he2, hx2⟩ := script_abort_char w (cleanupScript p L)
  refine ⟨⟨he1, hx1, ?_⟩, he2, hx2, ?_⟩
  · rw [ht1]
    exact noRetry_of_checks (okOf w) _ (setup_checks_count p acct (okOf w))
  · rw [ht2]
    exact noRetry_of_checks (okOf w) _ (cleanup_checks_count p L (okOf w) hnd)

/-- C2 (witness): the amended claim instantiated at a concrete profile,
account, listing and status assignment, with the distinctness hypothesis
discharged by computation. -/
theorem error_propagation_no_retry_witness :
    exampleListings.functions.Nodup ∧
    NoRetry (okOf failUrlDeleteOracle)
      (execScript OracleSem (cleanupScript "" exampleListings)
        (initState failUrlDeleteOracle [])).trace :=
  ⟨by decide,
    (error_propagation_no_retry "" "123456789012" exampleListings
      failUrlDeleteOracle (by decide)).2.2.2⟩
